import Mathlib

/-!
# Bob-RAM: page-frame allocator with reference counts, and shared-memory segments

A shallow embedding of `kernel/kalloc.c` and `kernel/shm.c`.

* C `int` is a 32-bit two's-complement integer, `uint64` a 64-bit unsigned one (RV64);
  values are kept in `Int`/`Nat` and every operation that can leave the range is wrapped
  explicitly (`toInt32`, `% 2^64`).
* The free list of `kalloc.c` is intrusive: the link of a free page is the first word of the
  page itself.  The state therefore holds the head pointer `freelist` and the word stored at
  the start of every page (`next`), exactly as the C code reads and writes them.
* `panic` is modelled by `none`.
* Every operation is one atomic step on the state; the `acquire`/`release` calls of each
  operation are transcribed separately as lock events.
-/

namespace BobRAM

/-! ## Constants and machine integers -/

/-- Modelled from the spec: the page size of `riscv.h`, which is not among the sources
("Allocates whole 4096-byte pages", kalloc.c line 3). -/
def PGSIZE : Nat := 4096

/-- Modelled from the spec: `PGSHIFT` of `riscv.h`, the binary logarithm of `PGSIZE`. -/
def PGSHIFT : Nat := 12

/-- The memory layout constants of `memlayout.h` and the linker symbol `kernel_end`; they are
not among the sources and are taken as parameters. -/
structure MemLayout where
  KERNBASE : Nat
  PHYSTOP : Nat
  kernel_end : Nat
deriving DecidableEq

/-- What the code assumes of the layout: the kernel image lies inside the managed range, which
starts above address 0, ends page aligned below `2^64`, and has fewer than `2^31` pages. -/
def MemLayout.WF (L : MemLayout) : Prop :=
  0 < L.KERNBASE ∧ L.KERNBASE ≤ L.kernel_end ∧ L.kernel_end ≤ L.PHYSTOP ∧
  L.PHYSTOP % 4096 = 0 ∧ L.PHYSTOP < 18446744073709551616 ∧
  (L.PHYSTOP - L.KERNBASE) / 4096 < 2147483648

instance (L : MemLayout) : Decidable L.WF := by
  unfold MemLayout.WF; infer_instance

/-- Conversion of an integer to a C `int` (32 bits, two's complement). -/
def toInt32 (x : Int) : Int := (2147483648 + x) % 4294967296 - 2147483648

/-- Conversion of an integer to a C `uint64`. -/
def toUint64 (x : Int) : Nat := (x % 18446744073709551616).toNat

/-- `PGROUNDUP` of `riscv.h` on a `uint64`: `(a + PGSIZE - 1) & ~(PGSIZE - 1)`. -/
def PGROUNDUP (a : Nat) : Nat := (a + PGSIZE - 1) % 18446744073709551616 / PGSIZE * PGSIZE

/-- `#define MAX_PAGE_COUNT ((PHYSTOP - KERNBASE) / PGSIZE)`. -/
def MAX_PAGE_COUNT (L : MemLayout) : Nat := (L.PHYSTOP - L.KERNBASE) / PGSIZE

/-- `pa2index`: the `uint64` quotient `(pa - KERNBASE) / PGSIZE`, returned as an `int`. -/
def pa2index (L : MemLayout) (pa : Nat) : Int :=
  toInt32 (((18446744073709551616 + pa - L.KERNBASE) % 18446744073709551616 / PGSIZE : Nat) : Int)

/-! ## The allocator and the reference-count table (kalloc.c) -/

/-- The state of `kalloc.c`: `kmem.freelist`, `kmem.npage`, the first word of every page
(`((struct run*)a)->next` for a page-aligned address `a`) and `page_ref.ref_count`. -/
structure AllocState where
  freelist : Nat
  npage : Nat
  next : Nat → Nat
  ref_count : Nat → Int

/-- The guard `idx >= 0 && idx < MAX_PAGE_COUNT`. -/
def idxOk (L : MemLayout) (idx : Int) : Prop := 0 ≤ idx ∧ idx < (MAX_PAGE_COUNT L : Int)

instance (L : MemLayout) (idx : Int) : Decidable (idxOk L idx) := by
  unfold idxOk; infer_instance

/-- The addresses `kfree` accepts: page aligned, not below `kernel_end`, below `PHYSTOP`. -/
def validPa (L : MemLayout) (pa : Nat) : Prop :=
  pa % PGSIZE = 0 ∧ L.kernel_end ≤ pa ∧ pa < L.PHYSTOP

instance (L : MemLayout) (pa : Nat) : Decidable (validPa L pa) := by
  unfold validPa; infer_instance

/-- The table index of the page at `pa`, as a natural number (for an index that passes the
guard). -/
def pidx (L : MemLayout) (pa : Nat) : Nat := (pa2index L pa).toNat

/-- `incref`: one more owner of the page at `pa`. -/
def incref (L : MemLayout) (s : AllocState) (pa : Nat) : AllocState :=
  let idx := pa2index L pa
  if idxOk L idx then
    { s with ref_count :=
        Function.update s.ref_count idx.toNat (toInt32 (s.ref_count idx.toNat + 1)) }
  else s

/-- `decref`: one owner less, unless the count is not positive. -/
def decref (L : MemLayout) (s : AllocState) (pa : Nat) : AllocState :=
  let idx := pa2index L pa
  if idxOk L idx then
    if s.ref_count idx.toNat > 0 then
      { s with ref_count := Function.update s.ref_count idx.toNat (s.ref_count idx.toNat - 1) }
    else s
  else s

/-- `getref`: the reference count of the page at `pa`, 0 outside the table. -/
def getref (L : MemLayout) (s : AllocState) (pa : Nat) : Int :=
  let idx := pa2index L pa
  if idxOk L idx then s.ref_count idx.toNat else 0

/-- `kfree`: `none` is `panic("kfree")`.  The count is lowered when positive; the page is
pushed on the free list only when the count is then not positive. -/
def kfree (L : MemLayout) (s : AllocState) (pa : Nat) : Option AllocState :=
  if pa % PGSIZE ≠ 0 ∨ pa < L.kernel_end ∨ pa ≥ L.PHYSTOP then none
  else
    let idx := pa2index L pa
    let s1 : AllocState :=
      if idxOk L idx then
        if s.ref_count idx.toNat > 0 then
          { s with ref_count :=
              Function.update s.ref_count idx.toNat (s.ref_count idx.toNat - 1) }
        else s
      else s
    if idxOk L idx ∧ s1.ref_count idx.toNat > 0 then some s1
    else
      some { s1 with
        next := Function.update s1.next pa s1.freelist
        freelist := pa
        npage := (s1.npage + 1) % 18446744073709551616 }

/-- The word that `memset((char*)r, 5, PGSIZE)` leaves at the start of the page. -/
def junk5 : Nat := 0x0505050505050505

/-- `kalloc`: pops the head of the free list; the returned pointer is 0 when the list is
empty. -/
def kalloc (L : MemLayout) (s : AllocState) : AllocState × Nat :=
  let r := s.freelist
  if r ≠ 0 then
    let s1 : AllocState :=
      { s with freelist := s.next r
               npage := (18446744073709551616 + s.npage - 1) % 18446744073709551616 }
    let s2 : AllocState := { s1 with next := Function.update s1.next r junk5 }
    let idx := pa2index L r
    let s3 : AllocState :=
      if idxOk L idx then { s2 with ref_count := Function.update s2.ref_count idx.toNat 1 }
      else s2
    (s3, r)
  else (s, 0)

/-- `freemem_amount`: `kmem.npage << PGSHIFT` as a `uint64`. -/
def freemem_amount (s : AllocState) : Nat := (s.npage * 2 ^ PGSHIFT) % 18446744073709551616

/-- The loop of `freerange`: `for(; p + PGSIZE <= pa_end; p += PGSIZE) kfree(p)`; `fuel`
bounds the number of iterations. -/
def freerangeLoop (L : MemLayout) (pa_end : Nat) : Nat → Nat → AllocState → Option AllocState
  | 0, _, s => some s
  | fuel + 1, p, s =>
    if p + PGSIZE ≤ pa_end then
      (kfree L s p).bind (freerangeLoop L pa_end fuel (p + PGSIZE))
    else some s

/-- `freerange(pa_start, pa_end)`; the fuel given to the loop is the number of pages between
the two addresses, which the loop cannot exceed. -/
def freerange (L : MemLayout) (s : AllocState) (pa_start pa_end : Nat) : Option AllocState :=
  freerangeLoop L pa_end (pa_end / PGSIZE + 1) (PGROUNDUP pa_start) s

/-- `kinit`: empty list, zero counter, every reference count 0, then every page from
`kernel_end` to `PHYSTOP` is released.  The memory contents before `kinit` are a parameter. -/
def kinit (L : MemLayout) (mem0 : Nat → Nat) : Option AllocState :=
  freerange L { freelist := 0, npage := 0, next := mem0, ref_count := fun _ => 0 }
    L.kernel_end L.PHYSTOP

/-! ## Shared-memory segments (shm.c) -/

/-- `#define NSHM 16`. -/
def NSHM : Nat := 16

/-- `#define SHM_RMID 1`. -/
def SHM_RMID : Int := 1

/-- `struct shm_segment`. -/
structure shm_segment where
  id : Int
  key : Int
  pa : Nat
  size : Nat
  ref_count : Int
  perm : Int
  used : Int
deriving DecidableEq

/-- The global `shm_table` (without its lock). -/
structure ShmTable where
  segments : Nat → shm_segment
  next_id : Int

/-- The kernel state the two files share: allocator, reference counts and segment table. -/
structure KState where
  alloc : AllocState
  shm : ShmTable

/-- `shm_init`: every slot unused, `next_id = 1`; the other fields are left as they are. -/
def shm_init (t : ShmTable) : ShmTable :=
  { segments := fun i => if i < NSHM then { t.segments i with used := 0 } else t.segments i
    next_id := 1 }

/-- `shm_lookup_key`: the first used slot with this key (its index instead of a pointer). -/
def shm_lookup_key (t : ShmTable) (key : Int) : Option Nat :=
  (List.range NSHM).find? fun i => decide ((t.segments i).used ≠ 0 ∧ (t.segments i).key = key)

/-- `shm_lookup_id`: the first used slot with this id. -/
def shm_lookup_id (t : ShmTable) (shmid : Int) : Option Nat :=
  (List.range NSHM).find? fun i => decide ((t.segments i).used ≠ 0 ∧ (t.segments i).id = shmid)

/-- `shm_alloc`: the first unused slot. -/
def shm_alloc (t : ShmTable) : Option Nat :=
  (List.range NSHM).find? fun i => decide ((t.segments i).used = 0)

/-- `do_shmget`.  `key` and `flag` are C `int`s, `size` a `uint64`.  `npages` is the `uint64`
quotient converted to `int`, and `npages * PGSIZE` is an `int` product converted back to
`uint64` (`PGSIZE` is the `int` constant 4096). -/
def do_shmget (L : MemLayout) (s : KState) (key : Int) (size : Nat) (flag : Int) :
    KState × Int :=
  match (if key ≠ 0 then shm_lookup_key s.shm key else none) with
  | some i => (s, (s.shm.segments i).id)
  | none =>
    match shm_alloc s.shm with
    | none => (s, -1)
    | some j =>
      let npages0 : Int :=
        toInt32 (((size + PGSIZE - 1) % 18446744073709551616 / PGSIZE : Nat) : Int)
      let npages : Int := if npages0 = 0 then 1 else npages0
      let r := kalloc L s.alloc
      if r.2 = 0 then ({ s with alloc := r.1 }, -1)
      else
        -- memset(mem, 0, PGSIZE)
        let a2 : AllocState := { r.1 with next := Function.update r.1.next r.2 0 }
        let seg : shm_segment :=
          { id := s.shm.next_id
            key := key
            pa := r.2
            size := toUint64 (toInt32 (npages * (PGSIZE : Int)))
            ref_count := 0
            perm := flag
            used := 1 }
        ({ alloc := a2
           shm := { segments := Function.update s.shm.segments j seg
                    next_id := toInt32 (s.shm.next_id + 1) } }, seg.id)

/-- The part of `struct proc` that shm.c uses: the size of the address space and the page
table, kept as the translation from virtual page numbers to physical page addresses. -/
structure Proc where
  sz : Nat
  pagetable : Nat → Option Nat

/-- Modelled from the spec: `mappages` of the address-space manager (vm.c is not among the
sources), "map(pagetable, virtual_addr, length, physical_addr, perm_flags) ->
success/failure".  Whether the manager succeeds is decided outside this core and is the
input `ok`; on success the pages of `[va, va + size)` translate to `pa`, `pa + PGSIZE`, ... -/
def mappages (pt : Nat → Option Nat) (va size pa : Nat) (ok : Bool) : Option (Nat → Option Nat) :=
  if ok then
    some fun n =>
      if va / PGSIZE ≤ n ∧ n * PGSIZE < va + size then some (pa + (n - va / PGSIZE) * PGSIZE)
      else pt n
  else none

/-- Modelled from the spec: `walk` followed by the validity test and `PTE2PA`,
"translate(pagetable, virtual_addr) -> Option<physical_addr>". -/
def translate (pt : Nat → Option Nat) (va : Nat) : Option Nat := pt (va / PGSIZE)

/-- Modelled from the spec: `vmunmap` without freeing,
"unmap(pagetable, virtual_addr, page_count, free_backing_pages: bool)". -/
def vmunmap (pt : Nat → Option Nat) (va npages : Nat) : Nat → Option Nat :=
  fun n => if va / PGSIZE ≤ n ∧ n < va / PGSIZE + npages then none else pt n

/-- The `uint64` value of `(void*)-1`. -/
def PTR_FAIL : Nat := 18446744073709551615

/-- `do_shmat` for the calling process `p`; `addr` and `flag` are not used by the code. -/
def do_shmat (s : KState) (p : Proc) (ok : Bool) (shmid : Int) (_addr : Nat) (_flag : Int) :
    KState × Proc × Nat :=
  match shm_lookup_id s.shm shmid with
  | none => (s, p, PTR_FAIL)
  | some i =>
    let seg := s.shm.segments i
    let va := PGROUNDUP p.sz
    match mappages p.pagetable va seg.size seg.pa ok with
    | none => (s, p, PTR_FAIL)
    | some pt =>
      ({ s with shm := { s.shm with
           segments := Function.update s.shm.segments i
             { seg with ref_count := toInt32 (seg.ref_count + 1) } } },
       { sz := (p.sz + seg.size) % 18446744073709551616, pagetable := pt }, va)

/-- The search loop of `do_shmdt`: the first used slot whose base is what `addr` translates
to in the page table `pt`. -/
def shmdt_find (t : ShmTable) (pt : Nat → Option Nat) (addr : Nat) : Option Nat :=
  (List.range NSHM).find? fun i =>
    decide ((t.segments i).used ≠ 0 ∧ translate pt addr = some (t.segments i).pa)

/-- `do_shmdt` for the calling process `p`: the first used segment whose base is what `addr`
translates to is detached. -/
def do_shmdt (s : KState) (p : Proc) (addr : Nat) : KState × Proc × Int :=
  match shmdt_find s.shm p.pagetable addr with
  | none => (s, p, -1)
  | some i =>
    let seg := s.shm.segments i
    ({ s with shm := { s.shm with
         segments := Function.update s.shm.segments i
           { seg with ref_count := toInt32 (seg.ref_count - 1) } } },
     { sz := if p.sz > seg.size then p.sz - seg.size else 0
       pagetable := vmunmap p.pagetable addr (seg.size / PGSIZE) }, 0)

/-- `do_shmctl`; `none` is the `panic` of `kfree`. -/
def do_shmctl (L : MemLayout) (s : KState) (shmid : Int) (cmd : Int) : Option (KState × Int) :=
  match shm_lookup_id s.shm shmid with
  | none => some (s, -1)
  | some i =>
    let seg := s.shm.segments i
    if cmd = SHM_RMID then
      if seg.ref_count > 0 then some (s, -1)
      else
        (kfree L s.alloc seg.pa).map fun a =>
          ({ alloc := a
             shm := { s.shm with
               segments := Function.update s.shm.segments i { seg with used := 0 } } }, 0)
    else some (s, 0)

/-! ## Executions -/

/-- The calls a client of the allocator can make. -/
inductive AllocOp where
  | kalloc
  | kfree (pa : Nat)
  | incref (pa : Nat)
  | decref (pa : Nat)
deriving DecidableEq

/-- One call, as an atomic step. -/
def AllocOp.run (L : MemLayout) : AllocOp → AllocState → Option AllocState
  | .kalloc, s => some (BobRAM.kalloc L s).1
  | .kfree pa, s => BobRAM.kfree L s pa
  | .incref pa, s => some (BobRAM.incref L s pa)
  | .decref pa, s => some (BobRAM.decref L s pa)

/-- A sequence of calls, stopping at a panic. -/
def runOps (L : MemLayout) : List AllocOp → AllocState → Option AllocState
  | [], s => some s
  | op :: ops, s => (op.run L s).bind (runOps L ops)

/-- The call `incref(pa)` made `k` times. -/
def increfN (L : MemLayout) (pa : Nat) : Nat → AllocState → AllocState
  | 0, s => s
  | k + 1, s => increfN L pa k (incref L s pa)

/-- The call `kfree(pa)` made `k` times. -/
def kfreeN (L : MemLayout) (pa : Nat) : Nat → AllocState → Option AllocState
  | 0, s => some s
  | k + 1, s => (kfree L s pa).bind (kfreeN L pa k)

/-- The states reachable from `kinit` by any sequence of calls that does not panic. -/
def Reachable (L : MemLayout) (s : AllocState) : Prop :=
  ∃ mem0 s0 ops, kinit L mem0 = some s0 ∧ runOps L ops s0 = some s

/-! ## Example inputs -/

/-- An example layout: three pages between `kernel_end` and `PHYSTOP`. -/
def exLayout : MemLayout :=
  { KERNBASE := 0x80020000, PHYSTOP := 0x80600000, kernel_end := 0x805fd000 }

/-- An allocator state with one free page, `0x805ff000`. -/
def exOnePage : AllocState :=
  { freelist := 0x805ff000, npage := 1, next := fun _ => 0, ref_count := fun _ => 0 }

/-! ## The free list as a sequence of pages -/

/-- The pages met when the links are followed from `head`, at most `fuel` of them. -/
def walkFree (next : Nat → Nat) : Nat → Nat → List Nat
  | 0, _ => []
  | fuel + 1, r => if r = 0 then [] else r :: walkFree next fuel (next r)

/-- The page `p` is on the free list: it is met when the links are followed from the head. -/
def OnFreeList (s : AllocState) (p : Nat) : Prop := ∃ n, p ∈ walkFree s.next n s.freelist

/-- The links lead from `head` through exactly the pages of `l` to the null pointer: `l` is
the free list, in order. -/
def IsFreeList (next : Nat → Nat) : Nat → List Nat → Prop
  | head, [] => head = 0
  | head, p :: l => head = p ∧ p ≠ 0 ∧ IsFreeList next (next p) l

/-- A run of calls from `s` to `s'` in which no call panics and every call is allowed by
`legal` in the state it is made in. -/
def LegalRun (L : MemLayout) (legal : AllocState → AllocOp → Prop) :
    AllocState → List AllocOp → AllocState → Prop
  | s, [], s' => s' = s
  | s, op :: ops, s' => legal s op ∧ ∃ t, op.run L s = some t ∧ LegalRun L legal t ops s'

/-- The states reachable from `kinit` by runs whose calls are allowed by `legal`. -/
def ReachBy (L : MemLayout) (legal : AllocState → AllocOp → Prop) (s : AllocState) : Prop :=
  ∃ mem0 s0 ops, kinit L mem0 = some s0 ∧ LegalRun L legal s0 ops s

/-- No double free: `kfree` is not called on a page that is on the free list. -/
def NoDoubleFree (s : AllocState) : AllocOp → Prop
  | .kfree pa => ¬ OnFreeList s pa
  | _ => True

/-- No signed overflow: `incref` is not called on a count of `INT_MAX`. -/
def NoOverflow (L : MemLayout) (s : AllocState) : AllocOp → Prop
  | .incref pa => getref L s pa < 2147483647
  | _ => True

/-- The owners' discipline: only pages that are allocated (count at least 1) are shared or
released, a count is lowered by `decref` only while another owner remains, and no count is
raised beyond `INT_MAX`. -/
def OwnerDiscipline (L : MemLayout) (s : AllocState) : AllocOp → Prop
  | .kalloc => True
  | .kfree pa => 1 ≤ getref L s pa
  | .incref pa => 1 ≤ getref L s pa ∧ getref L s pa < 2147483647
  | .decref pa => 2 ≤ getref L s pa

/-- The list invariant: `l` is the free list, it has no page twice, all its pages are pages
`kfree` accepts, and the counter is its length. -/
def ListInv (L : MemLayout) (s : AllocState) (l : List Nat) : Prop :=
  IsFreeList s.next s.freelist l ∧ l.Nodup ∧ (∀ p ∈ l, validPa L p) ∧ s.npage = l.length

/-- The page invariant: the list invariant, and every page `kfree` accepts is either on the
free list with count 0 or off the free list with a count of at least 1. -/
def PageInv (L : MemLayout) (s : AllocState) (l : List Nat) : Prop :=
  ListInv L s l ∧
  ∀ p, validPa L p →
    (p ∈ l ∧ s.ref_count (pidx L p) = 0) ∨ (p ∉ l ∧ 1 ≤ s.ref_count (pidx L p))

/-- The state after `kinit` on the example layout (memory all zero before). -/
def exInit : AllocState := (kinit exLayout fun _ => 0).getD exOnePage

/-- Whether `l` is the free list can be computed. -/
def IsFreeList.dec (next : Nat → Nat) : (head : Nat) → (l : List Nat) →
    Decidable (IsFreeList next head l)
  | head, [] => inferInstanceAs (Decidable (head = 0))
  | head, p :: l =>
    have := IsFreeList.dec next (next p) l
    inferInstanceAs (Decidable (head = p ∧ p ≠ 0 ∧ IsFreeList next (next p) l))

instance (next : Nat → Nat) (head : Nat) (l : List Nat) : Decidable (IsFreeList next head l) :=
  IsFreeList.dec next head l

/-- The example state after `kinit` and a second `kfree` of the page at the head of the free
list (a double free of a valid address). -/
def exDoubleFree : AllocState := (kfree exLayout exInit 0x805ff000).getD exInit

/-- The example state after `kinit`, `kalloc` (which returns `0x805ff000`), `incref` and
`kfree` of that page: one of two owners has released it. -/
def exShared : AllocState :=
  (runOps exLayout [AllocOp.kalloc, AllocOp.incref 0x805ff000, AllocOp.kfree 0x805ff000]
    exInit).getD exInit

instance (L : MemLayout) (s : AllocState) (op : AllocOp) :
    Decidable (OwnerDiscipline L s op) := by
  cases op <;> unfold OwnerDiscipline <;> infer_instance

instance (L : MemLayout) (s : AllocState) (op : AllocOp) : Decidable (NoOverflow L s op) := by
  cases op <;> unfold NoOverflow <;> infer_instance

/-! ## Executions of the shared-memory calls -/

/-- The kernel state together with the processes that call into shm.c (`myproc()` is the
process whose pid the call carries). -/
structure SysState where
  k : KState
  procs : Nat → Proc

/-- The shared-memory calls; `shmat` carries the answer `ok` of the address-space manager. -/
inductive ShmOp where
  | shmget (key : Int) (size : Nat) (flag : Int)
  | shmat (pid : Nat) (ok : Bool) (shmid : Int) (addr : Nat) (flag : Int)
  | shmdt (pid : Nat) (addr : Nat)
  | shmctl (shmid : Int) (cmd : Int)
deriving DecidableEq

/-- One shared-memory call as an atomic step; `none` is a panic. -/
def ShmOp.run (L : MemLayout) : ShmOp → SysState → Option SysState
  | .shmget key size flag, s => some { s with k := (do_shmget L s.k key size flag).1 }
  | .shmat pid ok shmid addr flag, s =>
    some { k := (do_shmat s.k (s.procs pid) ok shmid addr flag).1
           procs := Function.update s.procs pid
             (do_shmat s.k (s.procs pid) ok shmid addr flag).2.1 }
  | .shmdt pid addr, s =>
    some { k := (do_shmdt s.k (s.procs pid) addr).1
           procs := Function.update s.procs pid (do_shmdt s.k (s.procs pid) addr).2.1 }
  | .shmctl shmid cmd, s => (do_shmctl L s.k shmid cmd).map fun r => { s with k := r.1 }

/-- A run of shared-memory calls from `s` to `s'` in which no call panics and every call is
allowed by `legal` in the state it is made in. -/
def ShmRun (L : MemLayout) (legal : SysState → ShmOp → Prop) :
    SysState → List ShmOp → SysState → Prop
  | s, [], s' => s' = s
  | s, op :: ops, s' => legal s op ∧ ∃ t, op.run L s = some t ∧ ShmRun L legal t ops s'

/-- A state right after `shm_init` (whatever the allocator and the processes are). -/
def ShmInitial (s : SysState) : Prop := ∃ t0 : ShmTable, s.k.shm = shm_init t0

/-- The states reachable from `shm_init` by runs whose calls are allowed by `legal`. -/
def ShmReachBy (L : MemLayout) (legal : SysState → ShmOp → Prop) (s : SysState) : Prop :=
  ∃ s0 ops, ShmInitial s0 ∧ ShmRun L legal s0 ops s

/-- Any call is allowed. -/
def anyCall (_ : SysState) (_ : ShmOp) : Prop := True

/-- The call `do_shmget(key, ...)` creates a segment in `s`: no live segment has the key (or
the key is 0), a slot is unused and the allocator has a page. -/
def Creates (s : KState) (key : Int) : Prop :=
  (if key ≠ 0 then shm_lookup_key s.shm key else none) = none ∧
  shm_alloc s.shm ≠ none ∧ s.alloc.freelist ≠ 0

instance (s : KState) (key : Int) : Decidable (Creates s key) := by
  unfold Creates; infer_instance

/-- The segment table of a freshly booted kernel: all fields zero. -/
def zeroTable : ShmTable :=
  { segments := fun _ =>
      { id := 0, key := 0, pa := 0, size := 0, ref_count := 0, perm := 0, used := 0 }
    next_id := 0 }

/-- The example kernel state after `kinit` and `shm_init`. -/
def exK0 : KState := { alloc := exInit, shm := shm_init zeroTable }

/-- The example system after `kinit` and `shm_init`: no process has anything mapped. -/
def exSys0 : SysState := { k := exK0, procs := fun _ => { sz := 0, pagetable := fun _ => none } }

/-- No two live segments share a non-zero key. -/
def KeyUniq (t : ShmTable) : Prop :=
  ∀ i j, i < NSHM → j < NSHM → (t.segments i).used ≠ 0 → (t.segments j).used ≠ 0 →
    (t.segments i).key = (t.segments j).key → (t.segments i).key ≠ 0 → i = j

/-- The example system after two `do_shmget` calls with key 0 (`IPC_PRIVATE`). -/
def exTwoPrivate : SysState :=
  { exSys0 with
    k := (do_shmget exLayout (do_shmget exLayout exK0 0 4096 0).1 0 4096 0).1 }

/-- The example kernel state after `do_shmget(1234, 4096, 0)`: one live segment, id 1. -/
def exK1 : KState := (do_shmget exLayout exK0 1234 4096 0).1

/-- No overflow of the id counter: a creating `do_shmget` is not called when `next_id` is
`INT_MAX`. -/
def IdInRange (s : SysState) : ShmOp → Prop
  | .shmget key _ _ => Creates s.k key → s.k.shm.next_id < 2147483647
  | _ => True

/-- A client that creates an anonymous one-page segment and removes it again with the id it
was given, `k` times in a row. -/
def createRemoveN (L : MemLayout) : Nat → KState → Option KState
  | 0, s => some s
  | k + 1, s =>
    (do_shmctl L (do_shmget L s 0 4096 0).1 (do_shmget L s 0 4096 0).2 SHM_RMID).bind
      fun r => createRemoveN L k r.1

/-- The id invariant: `next_id` is positive and the live segments have distinct positive ids
below `next_id`. -/
def IdInv (t : ShmTable) : Prop :=
  1 ≤ t.next_id ∧
  (∀ i, i < NSHM → (t.segments i).used ≠ 0 → 1 ≤ (t.segments i).id ∧
    (t.segments i).id < t.next_id) ∧
  ∀ i j, i < NSHM → j < NSHM → (t.segments i).used ≠ 0 → (t.segments j).used ≠ 0 →
    (t.segments i).id = (t.segments j).id → i = j

/-- A sequence of shared-memory calls, stopping at a panic. -/
def runShm (L : MemLayout) : List ShmOp → SysState → Option SysState
  | [], s => some s
  | op :: ops, s => (op.run L s).bind (runShm L ops)

/-- The call is a successful attach of the segment `shmid` (found in slot `i`, mapping
granted), or a detach that succeeds and matches the segment in slot `i`. -/
def AttachDetachOf (shmid : Int) (i : Nat) (s : SysState) : ShmOp → Prop
  | .shmat _ ok id _ _ => id = shmid ∧ ok = true ∧ shm_lookup_id s.k.shm shmid = some i
  | .shmdt pid addr => shmdt_find s.k.shm (s.procs pid).pagetable addr = some i
  | _ => False

/-- The attach calls of a run. -/
def isAttach : ShmOp → Bool
  | .shmat _ _ _ _ _ => true
  | _ => false

/-- The detach calls of a run. -/
def isDetach : ShmOp → Bool
  | .shmdt _ _ => true
  | _ => false

/-- The example system with the one live segment of `exK1` (id 1, slot 0). -/
def exSys1 : SysState := { exSys0 with k := exK1 }

/-- The calls of the aliasing scenario: segment B (key 11, one page) is created first and
gets the page `0x805ff000`; segment A (key 22, 8192 bytes requested) gets the single page
`0x805fe000` just below it; process 0 attaches A and then detaches at the second page of the
mapping. -/
def exAliasOps : List ShmOp :=
  [ShmOp.shmget 11 4096 0, ShmOp.shmget 22 8192 0, ShmOp.shmat 0 true 2 0 0,
    ShmOp.shmdt 0 4096]

/-- The example system after the first three calls of the aliasing scenario (A attached). -/
def exAliasAttached : SysState := (runShm exLayout (exAliasOps.take 3) exSys0).getD exSys0

/-- The example system after all four calls of the aliasing scenario. -/
def exAliasDetached : SysState := (runShm exLayout exAliasOps exSys0).getD exSys0

/-! ## Lock events -/

/-- The three locks of the core. -/
inductive Lock where
  | kmem
  | page_ref
  | shm_table
deriving DecidableEq

/-- An `acquire` or a `release` of a lock. -/
inductive LockEv where
  | acquire (l : Lock)
  | release (l : Lock)
deriving DecidableEq

/-- The locks held after an event. -/
def heldAfter (held : List Lock) : LockEv → List Lock
  | .acquire l => l :: held
  | .release l => held.erase l

/-- The largest number of locks held at once during a trace that starts with `held`. -/
def maxHeld : List Lock → List LockEv → Nat
  | held, [] => held.length
  | held, e :: es => max held.length (maxHeld (heldAfter held e) es)

/-- The lock events of `incref`, `decref` and `getref`. -/
def refLocks : List LockEv := [.acquire .page_ref, .release .page_ref]

/-- The lock events of `kalloc` in state `s`: `kmem.lock` around the pop, then
`page_ref.lock` around the count when a page was found. -/
def kallocLocks (s : AllocState) : List LockEv :=
  [.acquire .kmem, .release .kmem] ++
    (if s.freelist ≠ 0 then [.acquire .page_ref, .release .page_ref] else [])

/-- The lock events of `kfree(pa)` in state `s` (for an address that does not panic):
`page_ref.lock` around the count, then `kmem.lock` around the push unless the page is still
referenced. -/
def kfreeLocks (L : MemLayout) (s : AllocState) (pa : Nat) : List LockEv :=
  [.acquire .page_ref, .release .page_ref] ++
    (if idxOk L (pa2index L pa) ∧ s.ref_count (pidx L pa) > 1 then []
     else [.acquire .kmem, .release .kmem])

/-- The lock events of `do_shmget`: `shm_table.lock` is held from the first line to the
return, `kalloc` is called in between on the creating path. -/
def shmgetLocks (s : KState) (key : Int) : List LockEv :=
  match (if key ≠ 0 then shm_lookup_key s.shm key else none) with
  | some _ => [.acquire .shm_table, .release .shm_table]
  | none =>
    match shm_alloc s.shm with
    | none => [.acquire .shm_table, .release .shm_table]
    | some _ => [.acquire .shm_table] ++ kallocLocks s.alloc ++ [.release .shm_table]

/-- The lock events of `do_shmat` and `do_shmdt` within shm.c (what the address-space manager
locks inside `mappages`, `walk` and `vmunmap` is not among the sources). -/
def shmatLocks : List LockEv := [.acquire .shm_table, .release .shm_table]

/-- The lock events of `do_shmctl`: `shm_table.lock` is held throughout, `kfree` is called in
between on the removing path. -/
def shmctlLocks (L : MemLayout) (s : KState) (shmid cmd : Int) : List LockEv :=
  match shm_lookup_id s.shm shmid with
  | none => [.acquire .shm_table, .release .shm_table]
  | some i =>
    if cmd = SHM_RMID then
      if (s.shm.segments i).ref_count > 0 then [.acquire .shm_table, .release .shm_table]
      else
        [.acquire .shm_table] ++ kfreeLocks L s.alloc (s.shm.segments i).pa ++
          [.release .shm_table]
    else [.acquire .shm_table, .release .shm_table]

/-- The example system after `do_shmget(1234, 2^31, 0)` (the segment with id 1 is recorded
with size `0xFFFFFFFF80000000`) and one `do_shmat(1, 0, 0)` by process 0. -/
def exBigAttached : SysState :=
  (runShm exLayout [ShmOp.shmget 1234 2147483648 0, ShmOp.shmat 0 true 1 0 0] exSys0).getD
    exSys0

/-! ## Basic facts -/

theorem toInt32_of_range {x : Int} (h0 : -2147483648 ≤ x) (h1 : x < 2147483648) :
    toInt32 x = x := by
  unfold toInt32; omega

theorem increfN_zero (L : MemLayout) (pa : Nat) (s : AllocState) : increfN L pa 0 s = s := rfl

theorem increfN_succ (L : MemLayout) (pa : Nat) (k : Nat) (s : AllocState) :
    increfN L pa (k + 1) s = increfN L pa k (incref L s pa) := rfl

theorem kfreeN_zero (L : MemLayout) (pa : Nat) (s : AllocState) : kfreeN L pa 0 s = some s := rfl

theorem kfreeN_succ (L : MemLayout) (pa : Nat) (k : Nat) (s : AllocState) :
    kfreeN L pa (k + 1) s = (kfree L s pa).bind (kfreeN L pa k) := rfl

theorem pa2index_page {L : MemLayout} (hL : L.WF) {pa : Nat} (hp : validPa L pa) :
    pa2index L pa = (((pa - L.KERNBASE) / 4096 : Nat) : Int) ∧
      (pa - L.KERNBASE) / 4096 < MAX_PAGE_COUNT L := by
  obtain ⟨h1, h2, h3, h4, h5, h6⟩ := hL
  obtain ⟨a, b, c⟩ := hp
  unfold pa2index MAX_PAGE_COUNT toInt32 PGSIZE at *
  omega

theorem idxOk_page {L : MemLayout} (hL : L.WF) {pa : Nat} (hp : validPa L pa) :
    idxOk L (pa2index L pa) := by
  obtain ⟨h, h'⟩ := pa2index_page hL hp
  rw [h]; unfold idxOk
  exact ⟨by omega, by exact_mod_cast h'⟩

theorem pidx_page {L : MemLayout} (hL : L.WF) {pa : Nat} (hp : validPa L pa) :
    pidx L pa = (pa - L.KERNBASE) / 4096 := by
  obtain ⟨h, -⟩ := pa2index_page hL hp
  unfold pidx; rw [h]; omega

theorem pidx_inj {L : MemLayout} (hL : L.WF) {p q : Nat} (hp : validPa L p) (hq : validPa L q)
    (h : pidx L p = pidx L q) : p = q := by
  rw [pidx_page hL hp, pidx_page hL hq] at h
  obtain ⟨h1, h2, h3, h4, h5, h6⟩ := hL
  obtain ⟨a, b, c⟩ := hp
  obtain ⟨a', b', c'⟩ := hq
  unfold PGSIZE at *
  omega

theorem validPa_ne_zero {L : MemLayout} (hL : L.WF) {p : Nat} (hp : validPa L p) : p ≠ 0 := by
  obtain ⟨h1, h2, -⟩ := hL
  obtain ⟨-, b, -⟩ := hp
  omega

theorem getref_eq {L : MemLayout} {pa : Nat} (h : idxOk L (pa2index L pa)) (s : AllocState) :
    getref L s pa = s.ref_count (pidx L pa) := by
  simp only [getref, h, pidx, if_true]

theorem incref_eq {L : MemLayout} {pa : Nat} (h : idxOk L (pa2index L pa)) (s : AllocState) :
    incref L s pa =
      { s with ref_count :=
          Function.update s.ref_count (pidx L pa) (toInt32 (s.ref_count (pidx L pa) + 1)) } := by
  simp only [incref, h, pidx, if_true]

theorem decref_eq {L : MemLayout} {pa : Nat} (h : idxOk L (pa2index L pa)) (s : AllocState) :
    decref L s pa =
      if s.ref_count (pidx L pa) > 0 then
        { s with ref_count :=
            Function.update s.ref_count (pidx L pa) (s.ref_count (pidx L pa) - 1) }
      else s := by
  simp only [decref, h, pidx, if_true]

theorem kalloc_eq {L : MemLayout} {s : AllocState} (hi : idxOk L (pa2index L s.freelist))
    (h0 : s.freelist ≠ 0) :
    kalloc L s =
      ({ freelist := s.next s.freelist
         npage := (18446744073709551616 + s.npage - 1) % 18446744073709551616
         next := Function.update s.next s.freelist junk5
         ref_count := Function.update s.ref_count (pidx L s.freelist) 1 }, s.freelist) := by
  simp only [kalloc, h0, hi, pidx, if_true, ne_eq, not_false_eq_true]

theorem kalloc_empty {L : MemLayout} {s : AllocState} (h0 : s.freelist = 0) :
    kalloc L s = (s, 0) := by
  simp only [kalloc, h0, ne_eq, not_true_eq_false, if_false]

theorem kfree_eq {L : MemLayout} (hL : L.WF) {p : Nat} (hp : validPa L p) (s : AllocState) :
    kfree L s p = some
      (if s.ref_count (pidx L p) > 1 then
        { s with ref_count :=
            Function.update s.ref_count (pidx L p) (s.ref_count (pidx L p) - 1) }
      else
        { freelist := p
          npage := (s.npage + 1) % 18446744073709551616
          next := Function.update s.next p s.freelist
          ref_count :=
            if s.ref_count (pidx L p) > 0 then
              Function.update s.ref_count (pidx L p) (s.ref_count (pidx L p) - 1)
            else s.ref_count }) := by
  have hi := idxOk_page hL hp
  have hv : ¬ (p % PGSIZE ≠ 0 ∨ p < L.kernel_end ∨ p ≥ L.PHYSTOP) := by
    obtain ⟨a, b, c⟩ := hp
    omega
  unfold kfree
  rw [if_neg hv]
  simp only [hi, if_true, true_and, pidx]
  by_cases h1 : s.ref_count (pa2index L p).toNat > 1
  · have h0 : s.ref_count (pa2index L p).toNat > 0 := by omega
    have h2 : s.ref_count (pa2index L p).toNat - 1 > 0 := by omega
    simp only [h0, h1, if_true, Function.update_same, h2]
  · by_cases h0 : s.ref_count (pa2index L p).toNat > 0
    · have h2 : ¬ (s.ref_count (pa2index L p).toNat - 1 > 0) := by omega
      simp only [h0, h1, if_true, if_false, Function.update_same, h2]
    · simp only [h0, h1, if_false]

theorem kfree_none {L : MemLayout} {p : Nat} (hp : ¬ validPa L p) (s : AllocState) :
    kfree L s p = none := by
  have hv : (p % PGSIZE ≠ 0 ∨ p < L.kernel_end ∨ p ≥ L.PHYSTOP) := by
    unfold validPa at hp
    omega
  unfold kfree
  rw [if_pos hv]

theorem increfN_eq {L : MemLayout} {pa : Nat} (h : idxOk L (pa2index L pa)) (k : Nat) :
    ∀ s : AllocState, -2147483648 ≤ s.ref_count (pidx L pa) →
      s.ref_count (pidx L pa) < 2147483648 →
      increfN L pa k s =
        { s with
          ref_count := Function.update s.ref_count (pidx L pa)
            (toInt32 (s.ref_count (pidx L pa) + (k : Int))) } := by
  induction k with
  | zero =>
    intro s h0 h1
    rw [increfN_zero]
    simp only [Nat.cast_zero, add_zero, toInt32_of_range h0 h1, Function.update_eq_self]
  | succ k ih =>
    intro s h0 h1
    have hr : -2147483648 ≤ toInt32 (s.ref_count (pidx L pa) + 1) ∧
        toInt32 (s.ref_count (pidx L pa) + 1) < 2147483648 := by
      unfold toInt32; omega
    rw [increfN_succ, incref_eq h]
    rw [ih _ (by simpa only [Function.update_same] using hr.1)
      (by simpa only [Function.update_same] using hr.2)]
    simp only [Function.update_same, Function.update_idem]
    have : toInt32 (toInt32 (s.ref_count (pidx L pa) + 1) + (k : Int)) =
        toInt32 (s.ref_count (pidx L pa) + ((k + 1 : Nat) : Int)) := by
      unfold toInt32; push_cast; omega
    rw [this]

theorem kfreeN_eq {L : MemLayout} (hL : L.WF) {p : Nat} (hp : validPa L p) (j : Nat) :
    ∀ s : AllocState, (j : Int) + 1 ≤ s.ref_count (pidx L p) →
      kfreeN L p j s = some
        { s with
          ref_count := Function.update s.ref_count (pidx L p)
            (s.ref_count (pidx L p) - (j : Int)) } := by
  induction j with
  | zero =>
    intro s _
    rw [kfreeN_zero]
    simp only [Nat.cast_zero, sub_zero, Function.update_eq_self]
  | succ j ih =>
    intro s hc
    have h1 : s.ref_count (pidx L p) > 1 := by push_cast at hc; omega
    rw [kfreeN_succ, kfree_eq hL hp, if_pos h1, Option.some_bind, ih]
    · simp only [Function.update_same, Function.update_idem]
      have : s.ref_count (pidx L p) - 1 - (j : Int) =
          s.ref_count (pidx L p) - ((j + 1 : Nat) : Int) := by push_cast; omega
      rw [this]
    · simp only [Function.update_same]; push_cast at hc; omega

theorem kfreeN_all {L : MemLayout} (hL : L.WF) {p : Nat} (hp : validPa L p) (j : Nat) :
    ∀ s : AllocState, s.ref_count (pidx L p) = (j : Int) + 1 →
      kfreeN L p (j + 1) s = some
        { freelist := p
          npage := (s.npage + 1) % 18446744073709551616
          next := Function.update s.next p s.freelist
          ref_count := Function.update s.ref_count (pidx L p) 0 } := by
  induction j with
  | zero =>
    intro s hc
    have h1 : ¬ s.ref_count (pidx L p) > 1 := by rw [hc]; simp
    have h2 : s.ref_count (pidx L p) > 0 := by rw [hc]; simp
    rw [kfreeN_succ, kfree_eq hL hp, if_neg h1, if_pos h2, Option.some_bind, kfreeN_zero, hc]
    simp only [Nat.cast_zero, zero_add, sub_self]
  | succ j ih =>
    intro s hc
    have h1 : s.ref_count (pidx L p) > 1 := by rw [hc]; push_cast; omega
    rw [kfreeN_succ, kfree_eq hL hp, if_pos h1, Option.some_bind, ih]
    · simp only [Function.update_idem]
    · simp only [Function.update_same, hc]; push_cast; omega

/-! ## C1: reference-count gating -/

/-- C1 (as amended): for a page `p` handed out by `kalloc` and `k` later calls of `incref(p)`
with `k + 1` within the range of the C `int` counter, the count is `k + 1`; each of the first
`k` calls of `kfree(p)` lowers the count by one and leaves the free list, the links and the
free-page counter as they were after `kalloc`; the `(k + 1)`-th call pushes `p` on the free
list with count 0. -/
theorem c1_refcount_gating (L : MemLayout) (hL : L.WF) (s : AllocState)
    (hp : validPa L s.freelist) (k : Nat) (hk : k + 1 < 2147483648) :
    (kalloc L s).2 = s.freelist ∧
    getref L (kalloc L s).1 s.freelist = 1 ∧
    getref L (increfN L s.freelist k (kalloc L s).1) s.freelist = (k : Int) + 1 ∧
    (∀ j : Nat, j ≤ k → ∃ t : AllocState,
      kfreeN L s.freelist j (increfN L s.freelist k (kalloc L s).1) = some t ∧
      getref L t s.freelist = (k : Int) + 1 - (j : Int) ∧
      t.freelist = (kalloc L s).1.freelist ∧ t.npage = (kalloc L s).1.npage ∧
      t.next = (kalloc L s).1.next) ∧
    (∃ t : AllocState,
      kfreeN L s.freelist (k + 1) (increfN L s.freelist k (kalloc L s).1) = some t ∧
      getref L t s.freelist = 0 ∧ t.freelist = s.freelist ∧
      t.next = Function.update (kalloc L s).1.next s.freelist (kalloc L s).1.freelist ∧
      t.npage = ((kalloc L s).1.npage + 1) % 18446744073709551616) := by
  have hi := idxOk_page hL hp
  have h0 := validPa_ne_zero hL hp
  rw [kalloc_eq hi h0]
  simp only
  rw [increfN_eq hi k _ (by simp only [Function.update_same]; omega)
    (by simp only [Function.update_same]; omega)]
  simp only [Function.update_same, Function.update_idem]
  have hw : toInt32 (1 + (k : Int)) = (k : Int) + 1 := by
    rw [toInt32_of_range (by omega) (by omega)]; omega
  rw [hw]
  refine ⟨trivial, ?_, ?_, ?_, ?_⟩
  · rw [getref_eq hi]; simp only [Function.update_same]
  · rw [getref_eq hi]; simp only [Function.update_same]
  · intro j hj
    refine ⟨_, kfreeN_eq hL hp j _ (by simp only [Function.update_same]; omega), ?_, rfl, rfl, rfl⟩
    rw [getref_eq hi]; simp only [Function.update_same]
  · rw [kfreeN_all hL hp k _ (by simp only [Function.update_same])]
    refine ⟨_, rfl, ?_, rfl, ?_, rfl⟩
    · rw [getref_eq hi]; simp only [Function.update_same]
    · simp only [Function.update_idem]

/-- Witness for C1: the layout with three pages, one free page, five sharers. -/
theorem c1_refcount_gating_witness :
    exLayout.WF ∧ validPa exLayout exOnePage.freelist ∧ 5 + 1 < 2147483648 ∧
    getref exLayout (increfN exLayout exOnePage.freelist 5 (kalloc exLayout exOnePage).1)
      exOnePage.freelist = 6 :=
  ⟨by decide, by decide, by decide,
    (c1_refcount_gating exLayout (by decide) exOnePage (by decide) 5 (by decide)).2.2.1⟩

/-- Counterexample to C1 as stated (every `k ≥ 0`): after `k = 2^31 - 1` calls of `incref` the
32-bit counter has wrapped to `-2^31`, and already the first `kfree` pushes the page on the
free list. -/
theorem c1_counterexample :
    getref exLayout (increfN exLayout exOnePage.freelist 2147483647 (kalloc exLayout exOnePage).1)
      exOnePage.freelist = -2147483648 ∧
    (kfree exLayout (increfN exLayout exOnePage.freelist 2147483647 (kalloc exLayout exOnePage).1)
      exOnePage.freelist).map (fun t => t.freelist) = some exOnePage.freelist ∧
    (kalloc exLayout exOnePage).1.freelist ≠ exOnePage.freelist := by
  have hi : idxOk exLayout (pa2index exLayout exOnePage.freelist) := by decide
  have hc : (kalloc exLayout exOnePage).1.ref_count (pidx exLayout exOnePage.freelist) = 1 := by
    decide
  rw [increfN_eq hi 2147483647 _ (by rw [hc]; decide) (by rw [hc]; decide), hc]
  refine ⟨by decide, by decide, by decide⟩

/-! ## C4: free/allocate symmetry -/

/-- C4: in a state whose free list is not empty (its head is a page), `p = kalloc()` followed
by `kfree(p)` gives back the same free list (same head, same links, so the same pages in the
same order) and the same free-page counter, and the count of `p` is 0; no other count
changes. -/
theorem c4_alloc_free_symmetry (L : MemLayout) (hL : L.WF) (s : AllocState)
    (hp : validPa L s.freelist) (hn : s.npage < 18446744073709551616) :
    ∃ t : AllocState, kfree L (kalloc L s).1 (kalloc L s).2 = some t ∧
      t.freelist = s.freelist ∧ t.next = s.next ∧ t.npage = s.npage ∧
      getref L t (kalloc L s).2 = 0 ∧
      ∀ i, i ≠ pidx L s.freelist → t.ref_count i = s.ref_count i := by
  have hi := idxOk_page hL hp
  have h0 := validPa_ne_zero hL hp
  rw [kalloc_eq hi h0]
  simp only
  rw [kfree_eq hL hp]
  simp only [Function.update_same, gt_iff_lt, lt_self_iff_false, if_false, zero_lt_one, if_true,
    Function.update_idem, sub_self, Function.update_eq_self]
  refine ⟨_, rfl, rfl, rfl, ?_, ?_, ?_⟩
  · simp only; omega
  · rw [getref_eq hi]; simp only [Function.update_same]
  · intro i hne
    simp only [Function.update_noteq hne]

/-- Witness for C4 on the one-page example state. -/
theorem c4_alloc_free_symmetry_witness :
    exLayout.WF ∧ validPa exLayout exOnePage.freelist ∧
    exOnePage.npage < 18446744073709551616 ∧
    ∃ t : AllocState,
      kfree exLayout (kalloc exLayout exOnePage).1 (kalloc exLayout exOnePage).2 = some t ∧
      t.freelist = exOnePage.freelist ∧ t.next = exOnePage.next ∧ t.npage = exOnePage.npage ∧
      getref exLayout t (kalloc exLayout exOnePage).2 = 0 ∧
      ∀ i, i ≠ pidx exLayout exOnePage.freelist → t.ref_count i = exOnePage.ref_count i :=
  ⟨by decide, by decide, by decide,
    c4_alloc_free_symmetry exLayout (by decide) exOnePage (by decide) (by decide)⟩

/-! ## C5: stack discipline of `kalloc` -/

/-- C5: when the head of the free list is a page, `kalloc` returns that head, the new head is
the head's link, no other link changes, the `uint64` counter goes down by one, and the count of
the returned page is exactly 1 whatever it was; and a `kfree(p)` that frees `p` (count at most
1 before) followed directly by `kalloc` returns `p`. -/
theorem c5_kalloc_stack (L : MemLayout) (hL : L.WF) (s : AllocState)
    (hp : validPa L s.freelist) (hn : s.npage < 18446744073709551616) :
    (kalloc L s).2 = s.freelist ∧
    (kalloc L s).1.freelist = s.next s.freelist ∧
    (∀ q, q ≠ s.freelist → (kalloc L s).1.next q = s.next q) ∧
    ((kalloc L s).1.npage + 1) % 18446744073709551616 = s.npage ∧
    (0 < s.npage → (kalloc L s).1.npage = s.npage - 1) ∧
    getref L (kalloc L s).1 s.freelist = 1 ∧
    (∀ (s' : AllocState) (p : Nat), validPa L p → s'.ref_count (pidx L p) ≤ 1 →
      ∃ t : AllocState, kfree L s' p = some t ∧ t.freelist = p ∧ (kalloc L t).2 = p) := by
  have hi := idxOk_page hL hp
  have h0 := validPa_ne_zero hL hp
  rw [kalloc_eq hi h0]
  refine ⟨rfl, rfl, ?_, ?_, ?_, ?_, ?_⟩
  · intro q hq
    simp only [Function.update_noteq hq]
  · simp only; omega
  · intro h; simp only; omega
  · rw [getref_eq hi]; simp only [Function.update_same]
  · intro s' p hv hc
    have h1 : ¬ s'.ref_count (pidx L p) > 1 := by omega
    rw [kfree_eq hL hv, if_neg h1]
    refine ⟨_, rfl, rfl, ?_⟩
    rw [kalloc_eq (idxOk_page hL hv) (validPa_ne_zero hL hv)]

/-- Witness for C5 on the one-page example state. -/
theorem c5_kalloc_stack_witness :
    exLayout.WF ∧ validPa exLayout exOnePage.freelist ∧
    exOnePage.npage < 18446744073709551616 ∧
    (kalloc exLayout exOnePage).2 = 0x805ff000 ∧
    getref exLayout (kalloc exLayout exOnePage).1 exOnePage.freelist = 1 :=
  ⟨by decide, by decide, by decide,
    (c5_kalloc_stack exLayout (by decide) exOnePage (by decide) (by decide)).1,
    (c5_kalloc_stack exLayout (by decide) exOnePage (by decide) (by decide)).2.2.2.2.2.1⟩

/-! ## C7: addresses outside the managed range -/

/-- No aliasing below `KERNBASE + 2^44`: an address below `KERNBASE`, or from `PHYSTOP` up to
`KERNBASE + 2^44`, does not pass the index guard (for a `KERNBASE` of at most `2^43`). -/
theorem pa2index_outside {L : MemLayout} (hL : L.WF) (hK : L.KERNBASE ≤ 8796093022208)
    {pa : Nat} (h : pa < L.KERNBASE ∨ (L.PHYSTOP ≤ pa ∧ pa < L.KERNBASE + 17592186044416)) :
    ¬ idxOk L (pa2index L pa) := by
  obtain ⟨h1, h2, h3, h4, h5, h6⟩ := hL
  unfold idxOk pa2index MAX_PAGE_COUNT toInt32 PGSIZE
  omega

/-- C7, the code at the failing input: `pa = KERNBASE + 2^44` lies outside
`[KERNBASE, PHYSTOP)`, but its page number `2^32` is truncated to the `int` 0, so `incref`
raises entry 0 of the table (the count of the page at `KERNBASE`), `getref` reads it and
`decref` lowers it. -/
theorem c7_truncation_alias :
    exLayout.PHYSTOP ≤ 0x100080020000 ∧ 0x100080020000 < 18446744073709551616 ∧
    pa2index exLayout 0x100080020000 = 0 ∧
    exOnePage.ref_count 0 = 0 ∧
    (incref exLayout exOnePage 0x100080020000).ref_count 0 = 1 ∧
    getref exLayout (incref exLayout exOnePage 0x100080020000) 0x100080020000 = 1 ∧
    (decref exLayout (incref exLayout exOnePage 0x100080020000) 0x100080020000).ref_count 0
      = 0 := by
  refine ⟨by decide, by decide, by decide, by decide, by decide, by decide, by decide⟩

/-! ## The free list -/

theorem walkFree_zero (next : Nat → Nat) (r : Nat) : walkFree next 0 r = [] := rfl

theorem walkFree_succ (next : Nat → Nat) (n r : Nat) :
    walkFree next (n + 1) r = if r = 0 then [] else r :: walkFree next n (next r) := rfl

theorem isFreeList_nil (next : Nat → Nat) (h : Nat) : IsFreeList next h [] ↔ h = 0 := Iff.rfl

theorem isFreeList_cons (next : Nat → Nat) (h p : Nat) (l : List Nat) :
    IsFreeList next h (p :: l) ↔ h = p ∧ p ≠ 0 ∧ IsFreeList next (next p) l := Iff.rfl

theorem isFreeList_update {next : Nat → Nat} {q v : Nat} :
    ∀ (l : List Nat) (h : Nat), q ∉ l →
      (IsFreeList (Function.update next q v) h l ↔ IsFreeList next h l) := by
  intro l
  induction l with
  | nil => intro h _; exact Iff.rfl
  | cons p l ih =>
    intro h hq
    have hqp : p ≠ q := fun e => hq (by rw [e]; exact List.mem_cons_self _ _)
    have hql : q ∉ l := fun e => hq (List.mem_cons_of_mem _ e)
    rw [isFreeList_cons, isFreeList_cons, Function.update_noteq hqp, ih _ hql]

theorem walkFree_eq_take {next : Nat → Nat} :
    ∀ (l : List Nat) (h n : Nat), IsFreeList next h l → walkFree next n h = l.take n := by
  intro l
  induction l with
  | nil =>
    intro h n hl
    rw [isFreeList_nil] at hl
    cases n with
    | zero => rfl
    | succ n => rw [walkFree_succ, if_pos hl]; rfl
  | cons p l ih =>
    intro h n hl
    rw [isFreeList_cons] at hl
    obtain ⟨rfl, hp, hl⟩ := hl
    cases n with
    | zero => rfl
    | succ n => rw [walkFree_succ, if_neg hp, ih _ n hl]; rfl

theorem onFreeList_iff {s : AllocState} {l : List Nat} (hl : IsFreeList s.next s.freelist l)
    (p : Nat) : OnFreeList s p ↔ p ∈ l := by
  constructor
  · rintro ⟨n, hn⟩
    rw [walkFree_eq_take l _ n hl] at hn
    exact List.mem_of_mem_take hn
  · intro hp
    refine ⟨l.length, ?_⟩
    rw [walkFree_eq_take l _ _ hl, List.take_length]
    exact hp

theorem isFreeList_unique {next : Nat → Nat} :
    ∀ (l l' : List Nat) (h : Nat), IsFreeList next h l → IsFreeList next h l' → l = l' := by
  intro l
  induction l with
  | nil =>
    intro l' h hl hl'
    rw [isFreeList_nil] at hl
    cases l' with
    | nil => rfl
    | cons q l' =>
      rw [isFreeList_cons] at hl'
      exact absurd (hl'.1.symm.trans hl) hl'.2.1
  | cons p l ih =>
    intro l' h hl hl'
    rw [isFreeList_cons] at hl
    cases l' with
    | nil =>
      rw [isFreeList_nil] at hl'
      exact absurd (hl.1.symm.trans hl') hl.2.1
    | cons q l' =>
      rw [isFreeList_cons] at hl'
      have e : p = q := hl.1.symm.trans hl'.1
      subst e
      rw [ih l' _ hl.2.2 hl'.2.2]

/-- A duplicate-free list of pages is no longer than the reference-count table. -/
theorem pages_length_le {L : MemLayout} (hL : L.WF) {l : List Nat} (hn : l.Nodup)
    (hv : ∀ p ∈ l, validPa L p) : l.length ≤ MAX_PAGE_COUNT L := by
  have h1 : (l.map (pidx L)).Nodup :=
    List.Nodup.map_on (fun x hx y hy h => pidx_inj hL (hv x hx) (hv y hy) h) hn
  have h2 : l.map (pidx L) ⊆ List.range (MAX_PAGE_COUNT L) := by
    intro i hi
    rw [List.mem_map] at hi
    obtain ⟨p, hp, rfl⟩ := hi
    rw [List.mem_range, pidx_page hL (hv p hp)]
    exact (pa2index_page hL (hv p hp)).2
  have h3 := (h1.subperm h2).length_le
  rw [List.length_map, List.length_range] at h3
  exact h3

theorem listInv_length_lt {L : MemLayout} (hL : L.WF) {s : AllocState} {l : List Nat}
    (h : ListInv L s l) : l.length < 2147483648 := by
  have := pages_length_le hL h.2.1 h.2.2.1
  obtain ⟨h1, h2, h3, h4, h5, h6⟩ := hL
  unfold MAX_PAGE_COUNT PGSIZE at this
  omega

theorem listInv_congr {L : MemLayout} {s t : AllocState} {l : List Nat}
    (h : ListInv L s l) (h1 : t.freelist = s.freelist) (h2 : t.next = s.next)
    (h3 : t.npage = s.npage) : ListInv L t l := by
  unfold ListInv at *
  rw [h1, h2, h3]
  exact h

theorem listInv_incref {L : MemLayout} {s : AllocState} {l : List Nat} (h : ListInv L s l)
    (pa : Nat) : ListInv L (incref L s pa) l := by
  unfold incref
  simp only
  split
  · exact listInv_congr h rfl rfl rfl
  · exact h

theorem listInv_decref {L : MemLayout} {s : AllocState} {l : List Nat} (h : ListInv L s l)
    (pa : Nat) : ListInv L (decref L s pa) l := by
  unfold decref
  simp only
  split
  · split
    · exact listInv_congr h rfl rfl rfl
    · exact h
  · exact h

theorem listInv_kalloc_nil {L : MemLayout} {s : AllocState} (h : ListInv L s []) :
    kalloc L s = (s, 0) :=
  kalloc_empty ((isFreeList_nil _ _).1 h.1)

theorem listInv_kalloc_cons {L : MemLayout} (hL : L.WF) {s : AllocState} {p : Nat}
    {l : List Nat} (h : ListInv L s (p :: l)) :
    (kalloc L s).2 = p ∧ ListInv L (kalloc L s).1 l ∧
      (kalloc L s).1.ref_count = Function.update s.ref_count (pidx L p) 1 := by
  obtain ⟨hl, hn, hv, hc⟩ := h
  rw [isFreeList_cons] at hl
  obtain ⟨hp, hp0, hl⟩ := hl
  have hvp : validPa L s.freelist := by rw [hp]; exact hv p (List.mem_cons_self _ _)
  have hlen := pages_length_le hL hn hv
  rw [kalloc_eq (idxOk_page hL hvp) (by rw [hp]; exact hp0), hp]
  refine ⟨rfl, ⟨?_, (List.nodup_cons.1 hn).2, fun q hq => hv q (List.mem_cons_of_mem _ hq), ?_⟩,
    rfl⟩
  · exact (isFreeList_update l _ (List.nodup_cons.1 hn).1).2 hl
  · simp only [hc, List.length_cons]
    obtain ⟨h1, h2, h3, h4, h5, h6⟩ := hL
    unfold MAX_PAGE_COUNT PGSIZE at hlen
    simp only [List.length_cons] at hlen
    omega

theorem listInv_push {L : MemLayout} (hL : L.WF) {s : AllocState} {l : List Nat}
    (h : ListInv L s l) {p : Nat} (hp : validPa L p) (hnot : p ∉ l) (rc : Nat → Int) :
    ListInv L
      { freelist := p
        npage := (s.npage + 1) % 18446744073709551616
        next := Function.update s.next p s.freelist
        ref_count := rc } (p :: l) := by
  obtain ⟨hl, hn, hv, hc⟩ := h
  have hn' : (p :: l).Nodup := List.nodup_cons.2 ⟨hnot, hn⟩
  have hv' : ∀ q ∈ p :: l, validPa L q := by
    intro q hq
    rcases List.mem_cons.1 hq with rfl | hq
    · exact hp
    · exact hv q hq
  have hlen := pages_length_le hL hn' hv'
  refine ⟨?_, hn', hv', ?_⟩
  · rw [isFreeList_cons]
    refine ⟨rfl, validPa_ne_zero hL hp, ?_⟩
    simp only [Function.update_same]
    exact (isFreeList_update l _ hnot).2 hl
  · simp only [hc, List.length_cons]
    obtain ⟨h1, h2, h3, h4, h5, h6⟩ := hL
    unfold MAX_PAGE_COUNT PGSIZE at hlen
    simp only [List.length_cons] at hlen
    omega

theorem listInv_kfree {L : MemLayout} (hL : L.WF) {s t : AllocState} {l : List Nat}
    (h : ListInv L s l) {p : Nat} (hnot : p ∉ l) (hk : kfree L s p = some t) :
    validPa L p ∧ (ListInv L t l ∨ ListInv L t (p :: l)) := by
  by_cases hp : validPa L p
  · refine ⟨hp, ?_⟩
    rw [kfree_eq hL hp] at hk
    have hk := Option.some.inj hk
    subst hk
    split
    · exact Or.inl (listInv_congr h rfl rfl rfl)
    · exact Or.inr (listInv_push hL h hp hnot _)
  · rw [kfree_none hp] at hk
    exact absurd hk (by simp)

theorem not_isFreeList_of_self_link {next : Nat → Nat} {a : Nat} (ha : a ≠ 0)
    (hn : next a = a) : ∀ l : List Nat, ¬ IsFreeList next a l := by
  intro l
  induction l with
  | nil => intro h; exact ha ((isFreeList_nil _ _).1 h)
  | cons p l ih =>
    intro h
    rw [isFreeList_cons] at h
    obtain ⟨e, -, hl⟩ := h
    rw [← e, hn] at hl
    exact ih hl

theorem walkFree_self_link {next : Nat → Nat} {a : Nat} (hn : next a = a) :
    ∀ (n p : Nat), p ∈ walkFree next n a → p = a := by
  intro n
  induction n with
  | zero => intro p hp; rw [walkFree_zero] at hp; exact absurd hp (List.not_mem_nil _)
  | succ n ih =>
    intro p hp
    rw [walkFree_succ] at hp
    split at hp
    · exact absurd hp (List.not_mem_nil _)
    · rw [hn] at hp
      rcases List.mem_cons.1 hp with h | h
      · exact h
      · exact ih p h

/-! ## `kinit` -/

theorem freerangeLoop_zero (L : MemLayout) (e p : Nat) (s : AllocState) :
    freerangeLoop L e 0 p s = some s := rfl

theorem freerangeLoop_succ (L : MemLayout) (e fuel p : Nat) (s : AllocState) :
    freerangeLoop L e (fuel + 1) p s =
      if p + PGSIZE ≤ e then (kfree L s p).bind (freerangeLoop L e fuel (p + PGSIZE))
      else some s := rfl

theorem freerangeLoop_spec {L : MemLayout} (hL : L.WF) (fuel : Nat) :
    ∀ (p : Nat) (s : AllocState) (l : List Nat),
      ListInv L s l → (∀ i, s.ref_count i = 0) → p % 4096 = 0 → L.kernel_end ≤ p →
      (∀ q, q ∈ l ↔ validPa L q ∧ q < p) → (L.PHYSTOP - p) / 4096 + 1 ≤ fuel →
      ∃ (t : AllocState) (l' : List Nat), freerangeLoop L L.PHYSTOP fuel p s = some t ∧
        ListInv L t l' ∧ (∀ i, t.ref_count i = 0) ∧ (∀ q, q ∈ l' ↔ validPa L q) := by
  induction fuel with
  | zero => intro p s l _ _ _ _ _ hf; omega
  | succ fuel ih =>
    intro p s l hinv hrc hal hke hmem hf
    rw [freerangeLoop_succ]
    by_cases hc : p + PGSIZE ≤ L.PHYSTOP
    · rw [if_pos hc]
      have hc' : p + 4096 ≤ L.PHYSTOP := hc
      have hp : validPa L p := ⟨hal, hke, by omega⟩
      have hnot : p ∉ l := fun h => by have := ((hmem p).1 h).2; omega
      have h1 : ¬ s.ref_count (pidx L p) > 1 := by rw [hrc]; decide
      have h0 : ¬ s.ref_count (pidx L p) > 0 := by rw [hrc]; decide
      rw [kfree_eq hL hp, if_neg h1, if_neg h0, Option.some_bind]
      refine ih (p + PGSIZE) _ (p :: l) (listInv_push hL hinv hp hnot _) hrc ?_ ?_ ?_ ?_
      · show (p + 4096) % 4096 = 0
        omega
      · show L.kernel_end ≤ p + 4096
        omega
      · intro q
        rw [List.mem_cons, hmem q]
        constructor
        · rintro (rfl | ⟨hv, hlt⟩)
          · exact ⟨hp, by show q < q + 4096; omega⟩
          · exact ⟨hv, by show q < p + 4096; omega⟩
        · rintro ⟨hv, hlt⟩
          have hlt' : q < p + 4096 := hlt
          have hqa : q % 4096 = 0 := hv.1
          by_cases hqp : q = p
          · exact Or.inl hqp
          · exact Or.inr ⟨hv, by omega⟩
      · show (L.PHYSTOP - (p + 4096)) / 4096 + 1 ≤ fuel
        omega
    · rw [if_neg hc]
      refine ⟨s, l, rfl, hinv, hrc, ?_⟩
      intro q
      rw [hmem q]
      constructor
      · exact fun h => h.1
      · intro hv
        refine ⟨hv, ?_⟩
        have hc' : ¬ p + 4096 ≤ L.PHYSTOP := hc
        have hqa : q % 4096 = 0 := hv.1
        have hqt : q < L.PHYSTOP := hv.2.2
        have ht : L.PHYSTOP % 4096 = 0 := hL.2.2.2.1
        omega

/-- After `kinit` the free list holds exactly the pages `kfree` accepts, each once, the
counter is their number and every reference count is 0. -/
theorem kinit_spec {L : MemLayout} (hL : L.WF) (mem0 : Nat → Nat) :
    ∃ (s0 : AllocState) (l : List Nat), kinit L mem0 = some s0 ∧ ListInv L s0 l ∧
      (∀ i, s0.ref_count i = 0) ∧ (∀ q, q ∈ l ↔ validPa L q) := by
  obtain ⟨h1, h2, h3, h4, h5, h6⟩ := hL
  unfold kinit freerange
  refine freerangeLoop_spec ⟨h1, h2, h3, h4, h5, h6⟩ _ _ _ []
    ⟨(isFreeList_nil _ _).2 rfl, List.nodup_nil, fun p hp => absurd hp (List.not_mem_nil _), rfl⟩
    (fun _ => rfl) ?_ ?_ ?_ ?_
  · unfold PGROUNDUP PGSIZE; omega
  · unfold PGROUNDUP PGSIZE; omega
  · intro q
    constructor
    · intro h; exact absurd h (List.not_mem_nil _)
    · rintro ⟨⟨ha, hb, hc⟩, hlt⟩
      unfold PGROUNDUP PGSIZE at *
      omega
  · unfold PGROUNDUP PGSIZE; omega

theorem kinit_inv {L : MemLayout} (hL : L.WF) {mem0 : Nat → Nat} {s0 : AllocState}
    (h : kinit L mem0 = some s0) :
    ∃ l : List Nat, ListInv L s0 l ∧ (∀ i, s0.ref_count i = 0) ∧ (∀ q, q ∈ l ↔ validPa L q) := by
  obtain ⟨s1, l, h1, h2, h3, h4⟩ := kinit_spec hL mem0
  rw [h] at h1
  have e := Option.some.inj h1
  subst e
  exact ⟨l, h2, h3, h4⟩

/-! ## Runs -/

theorem kinit_exLayout : kinit exLayout (fun _ => 0) = some exInit := rfl

theorem legalRun_nil (L : MemLayout) (legal : AllocState → AllocOp → Prop)
    (s s' : AllocState) : LegalRun L legal s [] s' ↔ s' = s := Iff.rfl

theorem legalRun_cons (L : MemLayout) (legal : AllocState → AllocOp → Prop)
    (s s' : AllocState) (op : AllocOp) (ops : List AllocOp) :
    LegalRun L legal s (op :: ops) s' ↔
      legal s op ∧ ∃ t, op.run L s = some t ∧ LegalRun L legal t ops s' := Iff.rfl

theorem runOps_nil (L : MemLayout) (s : AllocState) : runOps L [] s = some s := rfl

theorem runOps_cons (L : MemLayout) (op : AllocOp) (ops : List AllocOp) (s : AllocState) :
    runOps L (op :: ops) s = (op.run L s).bind (runOps L ops) := rfl

theorem legalRun_runOps {L : MemLayout} {legal : AllocState → AllocOp → Prop} :
    ∀ (ops : List AllocOp) (s s' : AllocState), LegalRun L legal s ops s' →
      runOps L ops s = some s' := by
  intro ops
  induction ops with
  | nil => intro s s' h; rw [legalRun_nil] at h; rw [h, runOps_nil]
  | cons op ops ih =>
    intro s s' h
    rw [legalRun_cons] at h
    obtain ⟨-, t, ht, hr⟩ := h
    rw [runOps_cons, ht, Option.some_bind, ih t s' hr]

theorem reachBy_reachable {L : MemLayout} {legal : AllocState → AllocOp → Prop}
    {s : AllocState} (h : ReachBy L legal s) : Reachable L s := by
  obtain ⟨mem0, s0, ops, h0, hr⟩ := h
  exact ⟨mem0, s0, ops, h0, legalRun_runOps ops s0 s hr⟩

/-- One call preserves the list invariant when it is not a double free; a page that is on the
free list afterwards was on it before or has just been released. -/
theorem listInv_step {L : MemLayout} (hL : L.WF) {s t : AllocState} {l : List Nat}
    (h : ListInv L s l) {op : AllocOp} (hleg : NoDoubleFree s op) (hr : op.run L s = some t) :
    ∃ l', ListInv L t l' ∧ ∀ p, p ∈ l' → p ∈ l ∨ op = AllocOp.kfree p := by
  cases op with
  | kalloc =>
    have e : t = (kalloc L s).1 := (Option.some.inj hr).symm
    subst e
    cases l with
    | nil => rw [listInv_kalloc_nil h]; exact ⟨[], h, fun p hp => Or.inl hp⟩
    | cons p l =>
      exact ⟨l, (listInv_kalloc_cons hL h).2.1, fun q hq => Or.inl (List.mem_cons_of_mem _ hq)⟩
  | kfree pa =>
    have hnot : pa ∉ l := fun hin => hleg ((onFreeList_iff h.1 pa).2 hin)
    rcases (listInv_kfree hL h hnot hr).2 with h' | h'
    · exact ⟨l, h', fun p hp => Or.inl hp⟩
    · refine ⟨pa :: l, h', fun p hp => ?_⟩
      rcases List.mem_cons.1 hp with rfl | hp
      · exact Or.inr rfl
      · exact Or.inl hp
  | incref pa =>
    have e : t = incref L s pa := (Option.some.inj hr).symm
    subst e
    exact ⟨l, listInv_incref h pa, fun p hp => Or.inl hp⟩
  | decref pa =>
    have e : t = decref L s pa := (Option.some.inj hr).symm
    subst e
    exact ⟨l, listInv_decref h pa, fun p hp => Or.inl hp⟩

theorem listInv_run {L : MemLayout} (hL : L.WF) :
    ∀ (ops : List AllocOp) (s s' : AllocState) (l : List Nat), ListInv L s l →
      LegalRun L NoDoubleFree s ops s' →
      ∃ l', ListInv L s' l' ∧ ∀ p, p ∈ l' → p ∈ l ∨ AllocOp.kfree p ∈ ops := by
  intro ops
  induction ops with
  | nil =>
    intro s s' l h hr
    rw [legalRun_nil] at hr
    subst hr
    exact ⟨l, h, fun p hp => Or.inl hp⟩
  | cons op ops ih =>
    intro s s' l h hr
    rw [legalRun_cons] at hr
    obtain ⟨hleg, t, ht, hr⟩ := hr
    obtain ⟨l1, h1, hm1⟩ := listInv_step hL h hleg ht
    obtain ⟨l2, h2, hm2⟩ := ih t s' l1 h1 hr
    refine ⟨l2, h2, fun p hp => ?_⟩
    rcases hm2 p hp with hp1 | hp1
    · rcases hm1 p hp1 with hp0 | hp0
      · exact Or.inl hp0
      · exact Or.inr (by rw [hp0]; exact List.mem_cons_self _ _)
    · exact Or.inr (List.mem_cons_of_mem _ hp1)

theorem listInv_of_reach {L : MemLayout} (hL : L.WF) {s : AllocState}
    (h : ReachBy L NoDoubleFree s) : ∃ l, ListInv L s l := by
  obtain ⟨mem0, s0, ops, h0, hr⟩ := h
  obtain ⟨l0, hl0, -, -⟩ := kinit_inv hL h0
  obtain ⟨l, hl, -⟩ := listInv_run hL ops s0 s l0 hl0 hr
  exact ⟨l, hl⟩

/-! ## C3: no double allocation -/

theorem reachable_exDoubleFree : Reachable exLayout exDoubleFree :=
  ⟨fun _ => 0, exInit, [AllocOp.kfree 0x805ff000], kinit_exLayout, rfl⟩

theorem reachBy_exInit (legal : AllocState → AllocOp → Prop) : ReachBy exLayout legal exInit :=
  ⟨fun _ => 0, exInit, [], kinit_exLayout, rfl⟩

/-- C3 (as amended): in a state reached from `kinit` without a double free the free list
never holds a page twice; and when `kalloc` returns a page `p` there, no later `kalloc`
returns `p` again as long as no `kfree(p)` has been called in between (the calls in between
being free of double frees as well). -/
theorem c3_no_double_allocation (L : MemLayout) (hL : L.WF) (s : AllocState)
    (hs : ReachBy L NoDoubleFree s) :
    (∀ n, (walkFree s.next n s.freelist).Nodup) ∧
    ∀ (ops : List AllocOp) (s' : AllocState), (kalloc L s).2 ≠ 0 →
      LegalRun L NoDoubleFree (kalloc L s).1 ops s' →
      AllocOp.kfree (kalloc L s).2 ∉ ops → (kalloc L s').2 ≠ (kalloc L s).2 := by
  obtain ⟨l, hl⟩ := listInv_of_reach hL hs
  constructor
  · intro n
    rw [walkFree_eq_take l _ n hl.1]
    exact hl.2.1.sublist (List.take_sublist n l)
  · intro ops s' hne hrun hno
    cases l with
    | nil => rw [listInv_kalloc_nil hl] at hne; exact absurd rfl hne
    | cons p l =>
      obtain ⟨hret, hl1, -⟩ := listInv_kalloc_cons hL hl
      rw [hret] at hno ⊢
      have hp0 : p ≠ 0 := validPa_ne_zero hL (hl.2.2.1 p (List.mem_cons_self _ _))
      have hpl : p ∉ l := (List.nodup_cons.1 hl.2.1).1
      obtain ⟨l2, hl2, hm⟩ := listInv_run hL ops _ s' l hl1 hrun
      have hp2 : p ∉ l2 := fun h => by
        rcases hm p h with h' | h'
        · exact hpl h'
        · exact hno h'
      cases l2 with
      | nil => rw [listInv_kalloc_nil hl2]; exact fun e => hp0 e.symm
      | cons q l2 =>
        rw [(listInv_kalloc_cons hL hl2).1]
        exact fun e => hp2 (by rw [← e]; exact List.mem_cons_self _ _)

/-- Witness for C3: after `kinit` on the example layout, two `kalloc` calls in a row return
different pages. -/
theorem c3_no_double_allocation_witness :
    exLayout.WF ∧ ReachBy exLayout NoDoubleFree exInit ∧
    (kalloc exLayout (kalloc exLayout exInit).1).2 ≠ (kalloc exLayout exInit).2 :=
  ⟨by decide, reachBy_exInit _,
    (c3_no_double_allocation exLayout (by decide) exInit (reachBy_exInit _)).2 []
      (kalloc exLayout exInit).1 (by decide) rfl (by decide)⟩

/-- Counterexample to C3 as stated (any execution): after `kinit`, `kfree` of the page at the
head of the free list (a valid address, released twice) links the page to itself; the free
list then shows it twice and two `kalloc` calls in a row return it, with no release in
between. -/
theorem c3_counterexample :
    Reachable exLayout exDoubleFree ∧
    ¬ (walkFree exDoubleFree.next 2 exDoubleFree.freelist).Nodup ∧
    (kalloc exLayout exDoubleFree).2 = 0x805ff000 ∧
    (kalloc exLayout (kalloc exLayout exDoubleFree).1).2 = 0x805ff000 :=
  ⟨reachable_exDoubleFree, by decide, by decide, by decide⟩

/-! ## C6: `freemem_amount` -/

/-- C6 (as amended): in a state reached from `kinit` without a double free, `freemem_amount`
returns the number of pages on the free list times the page size (the free bytes). -/
theorem c6_freemem_amount (L : MemLayout) (hL : L.WF) (s : AllocState)
    (hs : ReachBy L NoDoubleFree s) :
    ∃ l : List Nat, IsFreeList s.next s.freelist l ∧ l.Nodup ∧
      freemem_amount s = l.length * PGSIZE := by
  obtain ⟨l, hl⟩ := listInv_of_reach hL hs
  refine ⟨l, hl.1, hl.2.1, ?_⟩
  have hlen := listInv_length_lt hL hl
  unfold freemem_amount PGSHIFT PGSIZE
  rw [hl.2.2.2]
  norm_num
  omega

/-- Witness for C6: the state after `kinit` on the example layout. -/
theorem c6_freemem_amount_witness :
    exLayout.WF ∧ ReachBy exLayout NoDoubleFree exInit ∧
    ∃ l : List Nat, IsFreeList exInit.next exInit.freelist l ∧ l.Nodup ∧
      freemem_amount exInit = l.length * PGSIZE :=
  ⟨by decide, reachBy_exInit _, c6_freemem_amount exLayout (by decide) exInit (reachBy_exInit _)⟩

/-- Counterexample to C6 as stated: after `kinit` on the example layout the free list holds 3
pages and `freemem_amount` returns 12288; and after a second `kfree` of the head page it
returns 16384 while no list of pages is the free list (the head page is linked to itself). -/
theorem c6_counterexample :
    Reachable exLayout exInit ∧
    IsFreeList exInit.next exInit.freelist [0x805ff000, 0x805fe000, 0x805fd000] ∧
    freemem_amount exInit = 12288 ∧
    freemem_amount exInit ≠ [0x805ff000, 0x805fe000, 0x805fd000].length ∧
    Reachable exLayout exDoubleFree ∧ freemem_amount exDoubleFree = 16384 ∧
    ∀ l : List Nat, ¬ IsFreeList exDoubleFree.next exDoubleFree.freelist l :=
  ⟨reachBy_reachable (reachBy_exInit fun _ _ => True), by decide, by decide, by decide,
    reachable_exDoubleFree, by decide,
    not_isFreeList_of_self_link (a := exDoubleFree.freelist) (by decide) (by decide)⟩

/-! ## C8: reference counts are never negative -/

theorem getref_pos {L : MemLayout} {s : AllocState} {pa : Nat} (h : 1 ≤ getref L s pa) :
    idxOk L (pa2index L pa) := by
  by_contra hi
  simp only [getref, hi, if_false] at h
  omega

theorem kalloc_ref_count (L : MemLayout) (s : AllocState) (i : Nat) :
    (kalloc L s).1.ref_count i = s.ref_count i ∨ (kalloc L s).1.ref_count i = 1 := by
  unfold kalloc
  simp only
  split
  · split
    · by_cases hi : i = (pa2index L s.freelist).toNat
      · right; rw [hi]; simp only [Function.update_same]
      · left; simp only [Function.update_noteq hi]
    · left; rfl
  · left; rfl

theorem kfree_ref_count {L : MemLayout} {s t : AllocState} {pa : Nat}
    (h : kfree L s pa = some t) (i : Nat) :
    t.ref_count i = s.ref_count i ∨ (0 < s.ref_count i ∧ t.ref_count i = s.ref_count i - 1) := by
  unfold kfree at h
  split at h
  · exact absurd h (by simp)
  · simp only at h
    by_cases hi : idxOk L (pa2index L pa)
    · by_cases hc : s.ref_count (pa2index L pa).toNat > 0
      · simp only [hi, hc, if_true, true_and, Function.update_same] at h
        by_cases hii : i = (pa2index L pa).toNat
        · right
          subst hii
          refine ⟨hc, ?_⟩
          split at h
          · rw [← Option.some.inj h]; simp only [Function.update_same]
          · rw [← Option.some.inj h]; simp only [Function.update_same]
        · left
          split at h
          · rw [← Option.some.inj h]; simp only [Function.update_noteq hii]
          · rw [← Option.some.inj h]; simp only [Function.update_noteq hii]
      · left
        simp only [hi, hc, if_true, if_false, true_and] at h
        rw [← Option.some.inj h]
    · left
      simp only [hi, if_false, false_and] at h
      rw [← Option.some.inj h]

theorem nonneg_step {L : MemLayout} {s t : AllocState} (h : ∀ i, 0 ≤ s.ref_count i)
    {op : AllocOp} (hleg : NoOverflow L s op) (hr : op.run L s = some t) :
    ∀ i, 0 ≤ t.ref_count i := by
  intro i
  cases op with
  | kalloc =>
    rw [← Option.some.inj hr]
    rcases kalloc_ref_count L s i with e | e
    · rw [e]; exact h i
    · rw [e]; decide
  | kfree pa =>
    rcases kfree_ref_count hr i with e | ⟨hpos, e⟩
    · rw [e]; exact h i
    · rw [e]; omega
  | incref pa =>
    rw [← Option.some.inj hr]
    by_cases hi : idxOk L (pa2index L pa)
    · rw [incref_eq hi]
      have hlt : s.ref_count (pidx L pa) < 2147483647 := by
        have h' : getref L s pa < 2147483647 := hleg
        rw [getref_eq hi] at h'
        exact h'
      by_cases hii : i = pidx L pa
      · subst hii
        simp only [Function.update_same]
        rw [toInt32_of_range (by have := h (pidx L pa); omega) (by omega)]
        have := h (pidx L pa); omega
      · simp only [Function.update_noteq hii]; exact h i
    · simp only [incref, hi, if_false]; exact h i
  | decref pa =>
    rw [← Option.some.inj hr]
    by_cases hi : idxOk L (pa2index L pa)
    · rw [decref_eq hi]
      split
      · by_cases hii : i = pidx L pa
        · subst hii
          simp only [Function.update_same]
          omega
        · simp only [Function.update_noteq hii]; exact h i
      · exact h i
    · simp only [decref, hi, if_false]; exact h i

theorem nonneg_run {L : MemLayout} :
    ∀ (ops : List AllocOp) (s s' : AllocState), (∀ i, 0 ≤ s.ref_count i) →
      LegalRun L (NoOverflow L) s ops s' → ∀ i, 0 ≤ s'.ref_count i := by
  intro ops
  induction ops with
  | nil => intro s s' h hr; rw [legalRun_nil] at hr; rw [hr]; exact h
  | cons op ops ih =>
    intro s s' h hr
    rw [legalRun_cons] at hr
    obtain ⟨hleg, t, ht, hr⟩ := hr
    exact ih t s' (nonneg_step h hleg ht) hr

/-- C8 (as amended): in every state reached from `kinit` by `kalloc`, `kfree`, `incref` and
`decref` calls among which no `incref` is applied to a count of `INT_MAX`, every entry of the
table is at least 0; and there `decref` on an address that passes the index guard sets the
entry to `max (old - 1) 0` and changes no other entry, nor the free list, its links or the
free-page counter. -/
theorem c8_refcount_nonneg (L : MemLayout) (hL : L.WF) (s : AllocState)
    (hs : ReachBy L (NoOverflow L) s) :
    (∀ i, 0 ≤ s.ref_count i) ∧
    ∀ pa, idxOk L (pa2index L pa) →
      (decref L s pa).ref_count (pidx L pa) = max (s.ref_count (pidx L pa) - 1) 0 ∧
      (∀ i, i ≠ pidx L pa → (decref L s pa).ref_count i = s.ref_count i) ∧
      (decref L s pa).freelist = s.freelist ∧ (decref L s pa).next = s.next ∧
      (decref L s pa).npage = s.npage := by
  obtain ⟨mem0, s0, ops, h0, hr⟩ := hs
  obtain ⟨l0, -, hz, -⟩ := kinit_inv hL h0
  have hnn : ∀ i, 0 ≤ s.ref_count i :=
    nonneg_run ops s0 s (fun i => by rw [hz i]) hr
  refine ⟨hnn, fun pa hi => ?_⟩
  rw [decref_eq hi]
  have := hnn (pidx L pa)
  split
  · refine ⟨?_, fun i hii => ?_, rfl, rfl, rfl⟩
    · simp only [Function.update_same]; omega
    · simp only [Function.update_noteq hii]
  · refine ⟨?_, fun i _ => rfl, rfl, rfl, rfl⟩
    omega

/-- Witness for C8: the state after `kinit` on the example layout. -/
theorem c8_refcount_nonneg_witness :
    exLayout.WF ∧ ReachBy exLayout (NoOverflow exLayout) exInit ∧
    ∀ i, 0 ≤ exInit.ref_count i :=
  ⟨by decide, reachBy_exInit _,
    (c8_refcount_nonneg exLayout (by decide) exInit (reachBy_exInit _)).1⟩

theorem runOps_replicate_incref (L : MemLayout) (pa : Nat) (k : Nat) :
    ∀ s : AllocState,
      runOps L (List.replicate k (AllocOp.incref pa)) s = some (increfN L pa k s) := by
  induction k with
  | zero => intro s; rfl
  | succ k ih =>
    intro s
    rw [List.replicate_succ, runOps_cons, increfN_succ]
    exact ih (incref L s pa)

/-- Counterexample to C8 as stated (any sequence of calls): after `kinit` on the example
layout, `2^31` calls of `incref` on one page leave its 32-bit count at `-2^31`. -/
theorem c8_counterexample :
    Reachable exLayout (increfN exLayout 0x805ff000 2147483648 exInit) ∧
    (increfN exLayout 0x805ff000 2147483648 exInit).ref_count (pidx exLayout 0x805ff000)
      = -2147483648 := by
  refine ⟨⟨fun _ => 0, exInit, List.replicate 2147483648 (AllocOp.incref 0x805ff000),
    kinit_exLayout, runOps_replicate_incref _ _ _ _⟩, ?_⟩
  have hi : idxOk exLayout (pa2index exLayout 0x805ff000) := by decide
  have hc : exInit.ref_count (pidx exLayout 0x805ff000) = 0 := by decide
  rw [increfN_eq hi 2147483648 _ (by rw [hc]; decide) (by rw [hc]; decide), hc]
  simp only [Function.update_same]
  decide

/-! ## C19: the counter and the list -/

/-- C19 (as amended): in every state reached from `kinit` without a double free the counter
`kmem.npage` is the length of the free list. -/
theorem c19_counter_list_agreement (L : MemLayout) (hL : L.WF) (s : AllocState)
    (hs : ReachBy L NoDoubleFree s) :
    ∃ l : List Nat, IsFreeList s.next s.freelist l ∧ s.npage = l.length := by
  obtain ⟨l, hl⟩ := listInv_of_reach hL hs
  exact ⟨l, hl.1, hl.2.2.2⟩

/-- Witness for C19: the state after `kinit` on the example layout. -/
theorem c19_counter_list_agreement_witness :
    exLayout.WF ∧ ReachBy exLayout NoDoubleFree exInit ∧
    ∃ l : List Nat, IsFreeList exInit.next exInit.freelist l ∧ exInit.npage = l.length :=
  ⟨by decide, reachBy_exInit _,
    c19_counter_list_agreement exLayout (by decide) exInit (reachBy_exInit _)⟩

/-- Counterexample to C19 as stated (any sequence of calls): after `kinit` on the example
layout (3 pages) and a second `kfree` of the head page, the counter is 4 while the head page
is linked to itself: following the links only ever meets that one page, and no list of pages
is the free list. -/
theorem c19_counterexample :
    Reachable exLayout exDoubleFree ∧ exDoubleFree.npage = 4 ∧
    walkFree exDoubleFree.next 5 exDoubleFree.freelist =
      [0x805ff000, 0x805ff000, 0x805ff000, 0x805ff000, 0x805ff000] ∧
    ∀ l : List Nat, ¬ IsFreeList exDoubleFree.next exDoubleFree.freelist l :=
  ⟨reachable_exDoubleFree, by decide, by decide,
    not_isFreeList_of_self_link (a := exDoubleFree.freelist) (by decide) (by decide)⟩

/-! ## C2: the central invariant -/

theorem pageInv_step {L : MemLayout} (hL : L.WF) {s t : AllocState} {l : List Nat}
    (h : PageInv L s l) {op : AllocOp} (hleg : OwnerDiscipline L s op)
    (hr : op.run L s = some t) : ∃ l', PageInv L t l' := by
  obtain ⟨hl, hp⟩ := h
  cases op with
  | kalloc =>
    have e : t = (kalloc L s).1 := (Option.some.inj hr).symm
    subst e
    cases l with
    | nil => rw [listInv_kalloc_nil hl]; exact ⟨[], hl, hp⟩
    | cons p l =>
      obtain ⟨-, hl1, hrc⟩ := listInv_kalloc_cons hL hl
      have hvp : validPa L p := hl.2.2.1 p (List.mem_cons_self _ _)
      have hpl : p ∉ l := (List.nodup_cons.1 hl.2.1).1
      refine ⟨l, hl1, fun q hq => ?_⟩
      rw [hrc]
      by_cases e : q = p
      · subst e
        right
        simp only [Function.update_same]
        exact ⟨hpl, le_refl _⟩
      · have hne : pidx L q ≠ pidx L p := fun h' => e (pidx_inj hL hq hvp h')
        simp only [Function.update_noteq hne]
        rcases hp q hq with ⟨h1, h2⟩ | ⟨h1, h2⟩
        · left
          rcases List.mem_cons.1 h1 with h1 | h1
          · exact absurd h1 e
          · exact ⟨h1, h2⟩
        · right
          exact ⟨fun hin => h1 (List.mem_cons_of_mem _ hin), h2⟩
  | kfree pa =>
    have hge : 1 ≤ getref L s pa := hleg
    have hv : validPa L pa := by
      by_contra hv
      have hr' : kfree L s pa = some t := hr
      rw [kfree_none hv] at hr'
      exact absurd hr' (by simp)
    rw [getref_eq (idxOk_page hL hv)] at hge
    have hnot : pa ∉ l := by
      rcases hp pa hv with ⟨-, h2⟩ | ⟨h1, -⟩
      · omega
      · exact h1
    have hr' : kfree L s pa = some t := hr
    rw [kfree_eq hL hv] at hr'
    have e := Option.some.inj hr'
    subst e
    by_cases h1 : s.ref_count (pidx L pa) > 1
    · rw [if_pos h1]
      refine ⟨l, listInv_congr hl rfl rfl rfl, fun q hq => ?_⟩
      by_cases e : q = pa
      · subst e
        right
        simp only [Function.update_same]
        exact ⟨hnot, by omega⟩
      · have hne : pidx L q ≠ pidx L pa := fun h' => e (pidx_inj hL hq hv h')
        simp only [Function.update_noteq hne]
        exact hp q hq
    · rw [if_neg h1]
      have h0 : s.ref_count (pidx L pa) > 0 := by omega
      refine ⟨pa :: l, listInv_push hL hl hv hnot _, fun q hq => ?_⟩
      simp only [h0, if_true]
      by_cases e : q = pa
      · subst e
        left
        simp only [Function.update_same]
        exact ⟨List.mem_cons_self _ _, by omega⟩
      · have hne : pidx L q ≠ pidx L pa := fun h' => e (pidx_inj hL hq hv h')
        simp only [Function.update_noteq hne]
        rcases hp q hq with ⟨h1, h2⟩ | ⟨h1, h2⟩
        · exact Or.inl ⟨List.mem_cons_of_mem _ h1, h2⟩
        · right
          refine ⟨fun hin => ?_, h2⟩
          rcases List.mem_cons.1 hin with h' | h'
          · exact e h'
          · exact h1 h'
  | incref pa =>
    have hge : 1 ≤ getref L s pa ∧ getref L s pa < 2147483647 := hleg
    have hi := getref_pos hge.1
    rw [getref_eq hi] at hge
    have e : t = incref L s pa := (Option.some.inj hr).symm
    subst e
    refine ⟨l, listInv_incref hl pa, fun q hq => ?_⟩
    rw [incref_eq hi]
    by_cases e : pidx L q = pidx L pa
    · right
      rw [e]
      simp only [Function.update_same]
      rw [toInt32_of_range (by omega) (by omega)]
      refine ⟨?_, by omega⟩
      rcases hp q hq with ⟨-, h2⟩ | ⟨h1, -⟩
      · rw [e] at h2; omega
      · exact h1
    · simp only [Function.update_noteq e]
      exact hp q hq
  | decref pa =>
    have hge : 2 ≤ getref L s pa := hleg
    have hi := getref_pos (by omega : 1 ≤ getref L s pa)
    rw [getref_eq hi] at hge
    have e : t = decref L s pa := (Option.some.inj hr).symm
    subst e
    refine ⟨l, listInv_decref hl pa, fun q hq => ?_⟩
    rw [decref_eq hi, if_pos (by omega)]
    by_cases e : pidx L q = pidx L pa
    · right
      rw [e]
      simp only [Function.update_same]
      refine ⟨?_, by omega⟩
      rcases hp q hq with ⟨-, h2⟩ | ⟨h1, -⟩
      · rw [e] at h2; omega
      · exact h1
    · simp only [Function.update_noteq e]
      exact hp q hq

theorem pageInv_run {L : MemLayout} (hL : L.WF) :
    ∀ (ops : List AllocOp) (s s' : AllocState) (l : List Nat), PageInv L s l →
      LegalRun L (OwnerDiscipline L) s ops s' → ∃ l', PageInv L s' l' := by
  intro ops
  induction ops with
  | nil =>
    intro s s' l h hr
    rw [legalRun_nil] at hr
    subst hr
    exact ⟨l, h⟩
  | cons op ops ih =>
    intro s s' l h hr
    rw [legalRun_cons] at hr
    obtain ⟨hleg, t, ht, hr⟩ := hr
    obtain ⟨l1, h1⟩ := pageInv_step hL h hleg ht
    exact ih t s' l1 h1 hr

/-- C2 (as amended): in every state reached from `kinit` by calls that follow the owners'
discipline (`kfree` and `incref` only on a page whose count is at least 1, `decref` only on a
count of at least 2, no count raised beyond `INT_MAX`), every page the allocator manages is
exactly one of free (on the free list, count 0) or allocated (not on the free list, count at
least 1). -/
theorem c2_page_state_invariant (L : MemLayout) (hL : L.WF) (s : AllocState)
    (hs : ReachBy L (OwnerDiscipline L) s) (p : Nat) (hp : validPa L p) :
    (OnFreeList s p ∧ getref L s p = 0) ∨ (¬ OnFreeList s p ∧ 1 ≤ getref L s p) := by
  obtain ⟨mem0, s0, ops, h0, hr⟩ := hs
  obtain ⟨l0, hl0, hz, hm⟩ := kinit_inv hL h0
  have hinv0 : PageInv L s0 l0 := ⟨hl0, fun q hq => Or.inl ⟨(hm q).2 hq, hz _⟩⟩
  obtain ⟨l, hl, hpg⟩ := pageInv_run hL ops s0 s l0 hinv0 hr
  rw [onFreeList_iff hl.1, getref_eq (idxOk_page hL hp)]
  exact hpg p hp

theorem reachBy_exShared : ReachBy exLayout (OwnerDiscipline exLayout) exShared :=
  ⟨fun _ => 0, exInit,
    [AllocOp.kalloc, AllocOp.incref 0x805ff000, AllocOp.kfree 0x805ff000], kinit_exLayout,
    trivial, _, rfl, ⟨by decide, by decide⟩, _, rfl, by decide, _, rfl, rfl⟩

/-- Witness for C2: on the example layout, after `kalloc`, `incref` and one `kfree` of the
page it is still allocated. -/
theorem c2_page_state_invariant_witness :
    exLayout.WF ∧ ReachBy exLayout (OwnerDiscipline exLayout) exShared ∧
    validPa exLayout 0x805ff000 ∧
    ((OnFreeList exShared 0x805ff000 ∧ getref exLayout exShared 0x805ff000 = 0) ∨
      (¬ OnFreeList exShared 0x805ff000 ∧ 1 ≤ getref exLayout exShared 0x805ff000)) :=
  ⟨by decide, reachBy_exShared, by decide,
    c2_page_state_invariant exLayout (by decide) exShared reachBy_exShared 0x805ff000
      (by decide)⟩

/-- Counterexample to C2 as stated (any sequence of calls), on the example layout after
`kinit`: (1) `incref` of the page at the head of the free list leaves that page on the free
list with a reference count of 1; (2) `kalloc` followed by `decref` of the returned page
leaves that page off the free list with count 0; (3) a second `kfree` of the head page links
it to itself, and the page `0x805fe000` is then neither on the free list nor allocated. -/
theorem c2_counterexample :
    (Reachable exLayout (incref exLayout exInit 0x805ff000) ∧
      validPa exLayout 0x805ff000 ∧
      OnFreeList (incref exLayout exInit 0x805ff000) 0x805ff000 ∧
      getref exLayout (incref exLayout exInit 0x805ff000) 0x805ff000 = 1) ∧
    (Reachable exLayout (decref exLayout (kalloc exLayout exInit).1 0x805ff000) ∧
      ¬ OnFreeList (decref exLayout (kalloc exLayout exInit).1 0x805ff000) 0x805ff000 ∧
      getref exLayout (decref exLayout (kalloc exLayout exInit).1 0x805ff000) 0x805ff000 = 0) ∧
    (Reachable exLayout exDoubleFree ∧ validPa exLayout 0x805fe000 ∧
      ¬ OnFreeList exDoubleFree 0x805fe000 ∧ getref exLayout exDoubleFree 0x805fe000 = 0) := by
  refine ⟨⟨⟨fun _ => 0, exInit, [AllocOp.incref 0x805ff000], kinit_exLayout, rfl⟩, by decide,
    ⟨1, by decide⟩, by decide⟩, ⟨⟨fun _ => 0, exInit, [AllocOp.kalloc, AllocOp.decref 0x805ff000],
    kinit_exLayout, rfl⟩, ?_, by decide⟩, ⟨reachable_exDoubleFree, by decide, ?_, by decide⟩⟩
  · have hl : IsFreeList (decref exLayout (kalloc exLayout exInit).1 0x805ff000).next
        (decref exLayout (kalloc exLayout exInit).1 0x805ff000).freelist
        [0x805fe000, 0x805fd000] := by decide
    rw [onFreeList_iff hl]
    decide
  · rintro ⟨n, hn⟩
    have := walkFree_self_link (a := exDoubleFree.freelist) (by decide) n _ hn
    exact absurd this (by decide)

/-! ## Lookups in the segment table -/

theorem range_find_some {P : Nat → Bool} {n i : Nat}
    (h : (List.range n).find? P = some i) : i < n ∧ P i = true :=
  ⟨List.mem_range.1 (List.mem_of_find?_eq_some h), List.find?_some h⟩

theorem range_find_none {P : Nat → Bool} {n : Nat}
    (h : (List.range n).find? P = none) (i : Nat) (hi : i < n) : P i = false := by
  have := List.find?_eq_none.1 h i (List.mem_range.2 hi)
  simpa using this

theorem range_find_isSome {P : Nat → Bool} {n i : Nat} (hi : i < n) (hP : P i = true) :
    ∃ j, (List.range n).find? P = some j := by
  cases h : (List.range n).find? P with
  | none => rw [range_find_none h i hi] at hP; exact absurd hP (by simp)
  | some j => exact ⟨j, rfl⟩

/-- A search finds the slot `i` when `i` is the only slot that satisfies the test. -/
theorem range_find_unique {P : Nat → Bool} {n i : Nat} (hi : i < n) (hP : P i = true)
    (hu : ∀ j, j < n → P j = true → j = i) : (List.range n).find? P = some i := by
  obtain ⟨j, hj⟩ := range_find_isSome hi hP
  rw [hj, hu j (range_find_some hj).1 (range_find_some hj).2]

theorem list_find_congr {P Q : Nat → Bool} :
    ∀ l : List Nat, (∀ i, i ∈ l → P i = Q i) → l.find? P = l.find? Q := by
  intro l
  induction l with
  | nil => intro _; rfl
  | cons a l ih =>
    intro h
    rw [List.find?_cons, List.find?_cons, h a (List.mem_cons_self _ _),
      ih fun i hi => h i (List.mem_cons_of_mem _ hi)]

theorem range_find_congr {P Q : Nat → Bool} {n : Nat} (h : ∀ i, i < n → P i = Q i) :
    (List.range n).find? P = (List.range n).find? Q :=
  list_find_congr _ fun i hi => h i (List.mem_range.1 hi)

theorem shm_lookup_key_some {t : ShmTable} {key : Int} {i : Nat}
    (h : shm_lookup_key t key = some i) :
    i < NSHM ∧ (t.segments i).used ≠ 0 ∧ (t.segments i).key = key := by
  obtain ⟨h1, h2⟩ := range_find_some h
  exact ⟨h1, of_decide_eq_true h2⟩

theorem shm_lookup_key_none {t : ShmTable} {key : Int} (h : shm_lookup_key t key = none)
    (i : Nat) (hi : i < NSHM) : ¬ ((t.segments i).used ≠ 0 ∧ (t.segments i).key = key) :=
  of_decide_eq_false (range_find_none h i hi)

theorem shm_lookup_id_some {t : ShmTable} {shmid : Int} {i : Nat}
    (h : shm_lookup_id t shmid = some i) :
    i < NSHM ∧ (t.segments i).used ≠ 0 ∧ (t.segments i).id = shmid := by
  obtain ⟨h1, h2⟩ := range_find_some h
  exact ⟨h1, of_decide_eq_true h2⟩

theorem shm_lookup_id_none {t : ShmTable} {shmid : Int} (h : shm_lookup_id t shmid = none)
    (i : Nat) (hi : i < NSHM) : ¬ ((t.segments i).used ≠ 0 ∧ (t.segments i).id = shmid) :=
  of_decide_eq_false (range_find_none h i hi)

theorem shm_alloc_some {t : ShmTable} {j : Nat} (h : shm_alloc t = some j) :
    j < NSHM ∧ (t.segments j).used = 0 := by
  obtain ⟨h1, h2⟩ := range_find_some h
  exact ⟨h1, of_decide_eq_true h2⟩

theorem shm_alloc_none {t : ShmTable} (h : shm_alloc t = none) (i : Nat) (hi : i < NSHM) :
    (t.segments i).used ≠ 0 :=
  of_decide_eq_false (range_find_none h i hi)

/-! ## The cases of `do_shmget` -/

theorem do_shmget_found {L : MemLayout} {s : KState} {key : Int} (hk : key ≠ 0) {i : Nat}
    (h : shm_lookup_key s.shm key = some i) (size : Nat) (flag : Int) :
    do_shmget L s key size flag = (s, (s.shm.segments i).id) := by
  unfold do_shmget
  rw [if_pos hk, h]

theorem do_shmget_noslot {L : MemLayout} {s : KState} {key : Int}
    (h : (if key ≠ 0 then shm_lookup_key s.shm key else none) = none)
    (ha : shm_alloc s.shm = none) (size : Nat) (flag : Int) :
    do_shmget L s key size flag = (s, -1) := by
  unfold do_shmget
  rw [h]
  simp only [ha]

theorem do_shmget_nomem {L : MemLayout} {s : KState} {key : Int}
    (h : (if key ≠ 0 then shm_lookup_key s.shm key else none) = none) {j : Nat}
    (ha : shm_alloc s.shm = some j) (hm : s.alloc.freelist = 0) (size : Nat) (flag : Int) :
    do_shmget L s key size flag = (s, -1) := by
  unfold do_shmget
  rw [h]
  simp only [ha, kalloc_empty hm, if_true]

/-- The segment record that a creating `do_shmget` writes. -/
theorem do_shmget_create {L : MemLayout} {s : KState} {key : Int}
    (h : (if key ≠ 0 then shm_lookup_key s.shm key else none) = none) {j : Nat}
    (ha : shm_alloc s.shm = some j) (hm : s.alloc.freelist ≠ 0) (size : Nat) (flag : Int) :
    do_shmget L s key size flag =
      ({ alloc :=
           { (kalloc L s.alloc).1 with
             next := Function.update (kalloc L s.alloc).1.next s.alloc.freelist 0 }
         shm :=
           { segments := Function.update s.shm.segments j
               { id := s.shm.next_id
                 key := key
                 pa := s.alloc.freelist
                 size := toUint64 (toInt32
                   ((if toInt32 (((size + PGSIZE - 1) % 18446744073709551616 / PGSIZE : Nat) : Int)
                      = 0 then 1
                     else toInt32
                      (((size + PGSIZE - 1) % 18446744073709551616 / PGSIZE : Nat) : Int))
                     * (PGSIZE : Int)))
                 ref_count := 0
                 perm := flag
                 used := 1 }
             next_id := toInt32 (s.shm.next_id + 1) } }, s.shm.next_id) := by
  have hr : (kalloc L s.alloc).2 = s.alloc.freelist := by
    unfold kalloc
    simp only [hm, ne_eq, not_false_eq_true, if_true]
  unfold do_shmget
  rw [h]
  simp only [ha, hr, hm, if_false]

theorem do_shmget_cases (L : MemLayout) (s : KState) (key : Int) (size : Nat) (flag : Int) :
    Creates s key ∨ (do_shmget L s key size flag).1 = s := by
  by_cases hc : Creates s key
  · exact Or.inl hc
  · right
    unfold Creates at hc
    cases h : (if key ≠ 0 then shm_lookup_key s.shm key else none) with
    | some i =>
      have hk : key ≠ 0 := by
        by_contra hk
        rw [if_neg (by simpa using hk)] at h
        exact absurd h (by simp)
      rw [if_pos hk] at h
      rw [do_shmget_found hk h]
    | none =>
      cases ha : shm_alloc s.shm with
      | none => rw [do_shmget_noslot h ha]
      | some j =>
        have hm : s.alloc.freelist = 0 := by
          by_contra hm
          exact hc ⟨h, by rw [ha]; simp, hm⟩
        rw [do_shmget_nomem h ha hm]

/-! ## C9: segment key idempotence -/

theorem shm_lookup_key_update_new {t : ShmTable} {key : Int} (h : shm_lookup_key t key = none)
    {j : Nat} (hj : j < NSHM) {seg : shm_segment} (hu : seg.used ≠ 0) (hk : seg.key = key)
    (n : Int) :
    shm_lookup_key { segments := Function.update t.segments j seg, next_id := n } key
      = some j := by
  unfold shm_lookup_key
  apply range_find_unique hj
  · simp only [Function.update_same]
    exact decide_eq_true ⟨hu, hk⟩
  · intro i hi hP
    by_contra hne
    simp only [Function.update_noteq hne] at hP
    exact shm_lookup_key_none h i hi (of_decide_eq_true hP)

/-- C9: for every non-zero key `K` and every state, a second `do_shmget(K, ...)` right after
a first one returns the same value as the first, whatever its size and flags, and leaves the
whole state as the first call left it (no page allocated, no slot taken, `next_id`
unchanged); in particular so when the first call succeeded with id `i`. -/
theorem c9_key_idempotence (L : MemLayout) (s : KState) (K : Int) (hK : K ≠ 0)
    (size1 size2 : Nat) (flag1 flag2 : Int) :
    do_shmget L (do_shmget L s K size1 flag1).1 K size2 flag2 =
      ((do_shmget L s K size1 flag1).1, (do_shmget L s K size1 flag1).2) := by
  cases h : shm_lookup_key s.shm K with
  | some i => rw [do_shmget_found hK h, do_shmget_found hK h]
  | none =>
    have h' : (if K ≠ 0 then shm_lookup_key s.shm K else none) = none := by rw [if_pos hK, h]
    cases ha : shm_alloc s.shm with
    | none => rw [do_shmget_noslot h' ha, do_shmget_noslot h' ha]
    | some j =>
      by_cases hm : s.alloc.freelist = 0
      · rw [do_shmget_nomem h' ha hm, do_shmget_nomem h' ha hm]
      · rw [do_shmget_create h' ha hm]
        rw [do_shmget_found hK
          (shm_lookup_key_update_new h (shm_alloc_some ha).1 (by simp) rfl _)]
        simp only [Function.update_same]

/-- Witness for C9: key 1234 on the example kernel state; both calls return id 1. -/
theorem c9_key_idempotence_witness :
    (1234 : Int) ≠ 0 ∧
    (do_shmget exLayout exK0 1234 4096 0).2 = 1 ∧
    do_shmget exLayout (do_shmget exLayout exK0 1234 4096 0).1 1234 8192 7 =
      ((do_shmget exLayout exK0 1234 4096 0).1, (do_shmget exLayout exK0 1234 4096 0).2) :=
  ⟨by decide, by decide, c9_key_idempotence exLayout exK0 1234 (by decide) 4096 8192 0 7⟩

/-! ## The cases of `do_shmat`, `do_shmdt` and `do_shmctl` -/

theorem do_shmat_unknown {s : KState} {shmid : Int} (h : shm_lookup_id s.shm shmid = none)
    (p : Proc) (ok : Bool) (addr : Nat) (flag : Int) :
    do_shmat s p ok shmid addr flag = (s, p, PTR_FAIL) := by
  unfold do_shmat
  rw [h]

theorem do_shmat_mapfail {s : KState} {shmid : Int} {i : Nat}
    (h : shm_lookup_id s.shm shmid = some i) (p : Proc) (addr : Nat) (flag : Int) :
    do_shmat s p false shmid addr flag = (s, p, PTR_FAIL) := by
  unfold do_shmat
  rw [h]
  rfl

theorem do_shmat_ok {s : KState} {shmid : Int} {i : Nat}
    (h : shm_lookup_id s.shm shmid = some i) (p : Proc) (addr : Nat) (flag : Int) :
    do_shmat s p true shmid addr flag =
      ({ s with
         shm := { s.shm with
           segments := Function.update s.shm.segments i
             { s.shm.segments i with
               ref_count := toInt32 ((s.shm.segments i).ref_count + 1) } } },
       { sz := (p.sz + (s.shm.segments i).size) % 18446744073709551616
         pagetable := fun n =>
           if PGROUNDUP p.sz / PGSIZE ≤ n ∧ n * PGSIZE < PGROUNDUP p.sz + (s.shm.segments i).size
           then some ((s.shm.segments i).pa + (n - PGROUNDUP p.sz / PGSIZE) * PGSIZE)
           else p.pagetable n },
       PGROUNDUP p.sz) := by
  unfold do_shmat
  rw [h]
  rfl

theorem do_shmdt_nomatch {s : KState} {p : Proc} {addr : Nat}
    (h : shmdt_find s.shm p.pagetable addr = none) : do_shmdt s p addr = (s, p, -1) := by
  unfold do_shmdt
  rw [h]

theorem do_shmdt_match {s : KState} {p : Proc} {addr : Nat} {i : Nat}
    (h : shmdt_find s.shm p.pagetable addr = some i) :
    do_shmdt s p addr =
      ({ s with
         shm := { s.shm with
           segments := Function.update s.shm.segments i
             { s.shm.segments i with
               ref_count := toInt32 ((s.shm.segments i).ref_count - 1) } } },
       { sz := if p.sz > (s.shm.segments i).size then p.sz - (s.shm.segments i).size else 0
         pagetable := vmunmap p.pagetable addr ((s.shm.segments i).size / PGSIZE) }, 0) := by
  unfold do_shmdt
  rw [h]

theorem do_shmctl_unknown {L : MemLayout} {s : KState} {shmid : Int}
    (h : shm_lookup_id s.shm shmid = none) (cmd : Int) :
    do_shmctl L s shmid cmd = some (s, -1) := by
  unfold do_shmctl
  rw [h]

theorem do_shmctl_other {L : MemLayout} {s : KState} {shmid : Int} {i : Nat}
    (h : shm_lookup_id s.shm shmid = some i) {cmd : Int} (hc : cmd ≠ SHM_RMID) :
    do_shmctl L s shmid cmd = some (s, 0) := by
  unfold do_shmctl
  rw [h]
  simp only [hc, if_false]

theorem do_shmctl_attached {L : MemLayout} {s : KState} {shmid : Int} {i : Nat}
    (h : shm_lookup_id s.shm shmid = some i) (hr : (s.shm.segments i).ref_count > 0) :
    do_shmctl L s shmid SHM_RMID = some (s, -1) := by
  unfold do_shmctl
  rw [h]
  simp only [hr, if_true]

theorem do_shmctl_remove {L : MemLayout} {s : KState} {shmid : Int} {i : Nat}
    (h : shm_lookup_id s.shm shmid = some i) (hr : ¬ (s.shm.segments i).ref_count > 0) :
    do_shmctl L s shmid SHM_RMID =
      (kfree L s.alloc (s.shm.segments i).pa).map fun a =>
        ({ alloc := a
           shm := { s.shm with
             segments := Function.update s.shm.segments i
               { s.shm.segments i with used := 0 } } }, 0) := by
  unfold do_shmctl
  rw [h]
  simp only [hr, if_true, if_false]

/-! ## Runs of shared-memory calls -/

theorem shmRun_nil (L : MemLayout) (legal : SysState → ShmOp → Prop) (s s' : SysState) :
    ShmRun L legal s [] s' ↔ s' = s := Iff.rfl

theorem shmRun_cons (L : MemLayout) (legal : SysState → ShmOp → Prop) (s s' : SysState)
    (op : ShmOp) (ops : List ShmOp) :
    ShmRun L legal s (op :: ops) s' ↔
      legal s op ∧ ∃ t, op.run L s = some t ∧ ShmRun L legal t ops s' := Iff.rfl

/-- An invariant of the single calls is an invariant of runs. -/
theorem shmRun_invariant {L : MemLayout} {legal : SysState → ShmOp → Prop}
    (I : SysState → Prop)
    (hstep : ∀ s op t, I s → legal s op → op.run L s = some t → I t) :
    ∀ (ops : List ShmOp) (s s' : SysState), I s → ShmRun L legal s ops s' → I s' := by
  intro ops
  induction ops with
  | nil => intro s s' h hr; rw [shmRun_nil] at hr; rw [hr]; exact h
  | cons op ops ih =>
    intro s s' h hr
    rw [shmRun_cons] at hr
    obtain ⟨hleg, t, ht, hr⟩ := hr
    exact ih t s' (hstep s op t h hleg ht) hr

/-- What one call does to the segment table: nothing, or it writes slot `j` of a creating
`do_shmget`, or it changes the attach count of one slot, or it marks one slot unused. -/
theorem shmOp_table {L : MemLayout} {s t : SysState} {op : ShmOp}
    (hr : op.run L s = some t) :
    t.k.shm = s.k.shm ∨
    (∃ key size flag j, op = ShmOp.shmget key size flag ∧ Creates s.k key ∧
      shm_alloc s.k.shm = some j ∧
      t.k.shm.next_id = toInt32 (s.k.shm.next_id + 1) ∧
      (t.k.shm.segments j).id = s.k.shm.next_id ∧ (t.k.shm.segments j).key = key ∧
      (t.k.shm.segments j).used = 1 ∧ (t.k.shm.segments j).ref_count = 0 ∧
      (t.k.shm.segments j).pa = s.k.alloc.freelist ∧
      ∀ n, n ≠ j → t.k.shm.segments n = s.k.shm.segments n) ∨
    (∃ i c, t.k.shm.next_id = s.k.shm.next_id ∧
      t.k.shm.segments i = { s.k.shm.segments i with ref_count := c } ∧
      ∀ n, n ≠ i → t.k.shm.segments n = s.k.shm.segments n) ∨
    (∃ i, t.k.shm.next_id = s.k.shm.next_id ∧
      t.k.shm.segments i = { s.k.shm.segments i with used := 0 } ∧
      ∀ n, n ≠ i → t.k.shm.segments n = s.k.shm.segments n) := by
  cases op with
  | shmget key size flag =>
    have e : t = { s with k := (do_shmget L s.k key size flag).1 } := (Option.some.inj hr).symm
    subst e
    rcases do_shmget_cases L s.k key size flag with hc | hc
    · right; left
      obtain ⟨h1, h2, h3⟩ := hc
      cases ha : shm_alloc s.k.shm with
      | none => exact absurd ha h2
      | some j =>
        refine ⟨key, size, flag, j, rfl, ⟨h1, h2, h3⟩, rfl, ?_⟩
        rw [do_shmget_create h1 ha h3]
        refine ⟨rfl, ?_, ?_, ?_, ?_, ?_, fun n hn => Function.update_noteq hn _ _⟩ <;>
          simp only [Function.update_same]
    · left
      simp only [hc]
  | shmat pid ok shmid addr flag =>
    have e := (Option.some.inj hr).symm
    subst e
    simp only
    cases h : shm_lookup_id s.k.shm shmid with
    | none => left; rw [do_shmat_unknown h]
    | some i =>
      cases ok with
      | false => left; rw [do_shmat_mapfail h]
      | true =>
        right; right; left
        rw [do_shmat_ok h]
        exact ⟨i, toInt32 ((s.k.shm.segments i).ref_count + 1), rfl,
          by simp only [Function.update_same], fun n hn => Function.update_noteq hn _ _⟩
  | shmdt pid addr =>
    have e := (Option.some.inj hr).symm
    subst e
    simp only
    cases h : shmdt_find s.k.shm (s.procs pid).pagetable addr with
    | none => left; rw [do_shmdt_nomatch h]
    | some i =>
      right; right; left
      rw [do_shmdt_match h]
      exact ⟨i, toInt32 ((s.k.shm.segments i).ref_count - 1), rfl,
        by simp only [Function.update_same], fun n hn => Function.update_noteq hn _ _⟩
  | shmctl shmid cmd =>
    have hr' : (do_shmctl L s.k shmid cmd).map (fun r => { s with k := r.1 }) = some t := hr
    cases h : shm_lookup_id s.k.shm shmid with
    | none =>
      left
      rw [do_shmctl_unknown h] at hr'
      rw [← Option.some.inj hr']
    | some i =>
      by_cases hc : cmd = SHM_RMID
      · subst hc
        by_cases hrc : (s.k.shm.segments i).ref_count > 0
        · left
          rw [do_shmctl_attached h hrc] at hr'
          rw [← Option.some.inj hr']
        · right; right; right
          rw [do_shmctl_remove h hrc] at hr'
          cases hk : kfree L s.k.alloc (s.k.shm.segments i).pa with
          | none => rw [hk] at hr'; exact absurd hr' (by simp)
          | some a =>
            rw [hk] at hr'
            rw [← Option.some.inj hr']
            exact ⟨i, rfl, by simp only [Function.update_same],
              fun n hn => Function.update_noteq hn _ _⟩
      · left
        rw [do_shmctl_other h hc] at hr'
        rw [← Option.some.inj hr']

/-! ## C10: key uniqueness -/

theorem keyUniq_step {L : MemLayout} {s t : SysState} {op : ShmOp} (h : KeyUniq s.k.shm)
    (hr : op.run L s = some t) : KeyUniq t.k.shm := by
  rcases shmOp_table hr with e | ⟨key, size, flag, j0, -, hc, ha, -, -, hkey, -, -, -, hn⟩ |
    ⟨i0, c, -, hi0, hn⟩ | ⟨i0, -, hi0, hn⟩
  · rw [e]; exact h
  · intro i j hi hj hui huj hk h0
    have hnone : ∀ n, n < NSHM → n ≠ j0 → (s.k.shm.segments n).used ≠ 0 →
        (s.k.shm.segments n).key ≠ 0 → (s.k.shm.segments n).key ≠ key := by
      intro n hn1 _ hu hk0 hkk
      have hkey0 : key ≠ 0 := by rw [← hkk]; exact hk0
      have h1 := hc.1
      rw [if_pos hkey0] at h1
      exact shm_lookup_key_none h1 n hn1 ⟨hu, hkk⟩
    by_cases ei : i = j0
    · by_cases ej : j = j0
      · rw [ei, ej]
      · exfalso
        rw [ei, hkey, hn j ej] at hk
        rw [ei, hkey] at h0
        rw [hn j ej] at huj
        exact hnone j hj ej huj (by rw [← hk]; exact h0) hk.symm
    · by_cases ej : j = j0
      · exfalso
        rw [ej, hkey, hn i ei] at hk
        rw [hn i ei] at hui h0
        exact hnone i hi ei hui h0 hk
      · rw [hn i ei] at hui hk h0
        rw [hn j ej] at huj hk
        exact h i j hi hj hui huj hk h0
  · have hsame : ∀ n, (t.k.shm.segments n).used = (s.k.shm.segments n).used ∧
        (t.k.shm.segments n).key = (s.k.shm.segments n).key := by
      intro n
      by_cases e : n = i0
      · rw [e, hi0]; exact ⟨rfl, rfl⟩
      · rw [hn n e]; exact ⟨rfl, rfl⟩
    intro i j hi hj hui huj hk h0
    rw [(hsame i).1] at hui
    rw [(hsame j).1] at huj
    rw [(hsame i).2] at hk h0
    rw [(hsame j).2] at hk
    exact h i j hi hj hui huj hk h0
  · intro i j hi hj hui huj hk h0
    have ei : i ≠ i0 := fun e => hui (by rw [e, hi0])
    have ej : j ≠ i0 := fun e => huj (by rw [e, hi0])
    rw [hn i ei] at hui hk h0
    rw [hn j ej] at huj hk
    exact h i j hi hj hui huj hk h0

theorem keyUniq_init {s : SysState} (h : ShmInitial s) : KeyUniq s.k.shm := by
  obtain ⟨t0, e⟩ := h
  intro i j hi _ hui
  rw [e] at hui
  simp only [shm_init, hi, if_true] at hui
  exact absurd rfl hui

/-- C10 (as amended): in every state reachable from `shm_init` by any sequence of
`do_shmget`, `do_shmat`, `do_shmdt` and `do_shmctl` calls, at most one live segment has any
given non-zero key. -/
theorem c10_key_uniqueness (L : MemLayout) (s : SysState) (hs : ShmReachBy L anyCall s)
    (i j : Nat) (hi : i < NSHM) (hj : j < NSHM) (hui : (s.k.shm.segments i).used ≠ 0)
    (huj : (s.k.shm.segments j).used ≠ 0)
    (hk : (s.k.shm.segments i).key = (s.k.shm.segments j).key)
    (h0 : (s.k.shm.segments i).key ≠ 0) : i = j := by
  obtain ⟨s0, ops, h0', hr⟩ := hs
  exact shmRun_invariant (fun s => KeyUniq s.k.shm)
    (fun s op t hI _ hrun => keyUniq_step hI hrun) ops s0 s (keyUniq_init h0') hr
    i j hi hj hui huj hk h0

theorem shmInitial_exSys0 : ShmInitial exSys0 := ⟨zeroTable, rfl⟩

/-- Witness for C10: the example system after `do_shmget(1234, 4096, 0)`. -/
theorem c10_key_uniqueness_witness :
    ShmReachBy exLayout anyCall { exSys0 with k := (do_shmget exLayout exK0 1234 4096 0).1 } ∧
    (0 : Nat) = 0 :=
  ⟨⟨exSys0, [ShmOp.shmget 1234 4096 0], shmInitial_exSys0, trivial, _, rfl, rfl⟩,
    c10_key_uniqueness exLayout { exSys0 with k := (do_shmget exLayout exK0 1234 4096 0).1 }
      ⟨exSys0, [ShmOp.shmget 1234 4096 0], shmInitial_exSys0, trivial, _, rfl, rfl⟩
      0 0 (by decide) (by decide) (by decide) (by decide) rfl (by decide)⟩

/-- Counterexample to C10 as stated (any key): after `shm_init`, two calls
`do_shmget(0, 4096, 0)` leave two live segments, in slots 0 and 1, both with key 0. -/
theorem c10_counterexample :
    ShmReachBy exLayout anyCall exTwoPrivate ∧
    (exTwoPrivate.k.shm.segments 0).used ≠ 0 ∧ (exTwoPrivate.k.shm.segments 1).used ≠ 0 ∧
    (exTwoPrivate.k.shm.segments 0).key = (exTwoPrivate.k.shm.segments 1).key ∧
    (0 : Nat) ≠ 1 :=
  ⟨⟨exSys0, [ShmOp.shmget 0 4096 0, ShmOp.shmget 0 4096 0], shmInitial_exSys0,
      trivial, _, rfl, trivial, _, rfl, rfl⟩,
    by decide, by decide, by decide, by decide⟩

/-! ## C16: removal releases the backing page -/

theorem shm_lookup_id_unique {t : ShmTable} {i : Nat} (hi : i < NSHM)
    (hu : (t.segments i).used ≠ 0)
    (huniq : ∀ n, n < NSHM → (t.segments n).used ≠ 0 →
      (t.segments n).id = (t.segments i).id → n = i) :
    shm_lookup_id t (t.segments i).id = some i := by
  unfold shm_lookup_id
  apply range_find_unique hi (decide_eq_true ⟨hu, rfl⟩)
  intro n hn hP
  exact huniq n hn (of_decide_eq_true hP).1 (of_decide_eq_true hP).2

/-- C16, first part: removal of a live, unattached segment `seg` (in slot `i`) whose backing
page has count 1. -/
theorem shmctl_remove_spec {L : MemLayout} (hL : L.WF) (s : KState) (i : Nat) (hi : i < NSHM)
    {seg : shm_segment} (hseg : s.shm.segments i = seg) (hu : seg.used ≠ 0)
    (huniq : ∀ n, n < NSHM → (s.shm.segments n).used ≠ 0 →
      (s.shm.segments n).id = seg.id → n = i)
    (hat : ¬ seg.ref_count > 0) (hpa : validPa L seg.pa)
    (hrc : s.alloc.ref_count (pidx L seg.pa) = 1) :
    do_shmctl L s seg.id SHM_RMID = some
      ({ alloc :=
           { freelist := seg.pa
             npage := (s.alloc.npage + 1) % 18446744073709551616
             next := Function.update s.alloc.next seg.pa s.alloc.freelist
             ref_count := Function.update s.alloc.ref_count (pidx L seg.pa) 0 }
         shm := { s.shm with
           segments := Function.update s.shm.segments i { seg with used := 0 } } }, 0) := by
  subst hseg
  rw [do_shmctl_remove (shm_lookup_id_unique hi hu huniq) hat, kfree_eq hL hpa, hrc]
  simp only [gt_iff_lt, lt_self_iff_false, if_false, zero_lt_one, if_true, sub_self,
    Option.map_some']

theorem idInv_init {s : SysState} (h : ShmInitial s) : IdInv s.k.shm := by
  obtain ⟨t0, e⟩ := h
  rw [e]
  refine ⟨le_refl _, ?_, ?_⟩
  · intro i hi hu
    simp only [shm_init, hi, if_true] at hu
    exact absurd rfl hu
  · intro i j hi _ hu
    simp only [shm_init, hi, if_true] at hu
    exact absurd rfl hu

theorem idInv_step {L : MemLayout} {s t : SysState} {op : ShmOp} (h : IdInv s.k.shm)
    (hleg : IdInRange s op) (hr : op.run L s = some t) :
    IdInv t.k.shm ∧ s.k.shm.next_id ≤ t.k.shm.next_id := by
  obtain ⟨h1, h2, h3⟩ := h
  rcases shmOp_table hr with e | ⟨key, size, flag, j0, hop, hc, ha, hnext, hid, -, hused, -, -, hn⟩ |
    ⟨i0, c, hnext, hi0, hn⟩ | ⟨i0, hnext, hi0, hn⟩
  · rw [e]; exact ⟨⟨h1, h2, h3⟩, le_refl _⟩
  · subst hop
    have hlt : s.k.shm.next_id < 2147483647 := hleg hc
    have hnx : t.k.shm.next_id = s.k.shm.next_id + 1 := by
      rw [hnext, toInt32_of_range (by omega) (by omega)]
    refine ⟨⟨by omega, ?_, ?_⟩, by omega⟩
    · intro i hi hu
      by_cases e : i = j0
      · rw [e, hid]; omega
      · rw [hn i e] at hu ⊢
        have := h2 i hi hu
        omega
    · intro i j hi hj hui huj hij
      by_cases ei : i = j0
      · by_cases ej : j = j0
        · rw [ei, ej]
        · exfalso
          rw [ei, hid, hn j ej] at hij
          rw [hn j ej] at huj
          have := h2 j hj huj
          omega
      · by_cases ej : j = j0
        · exfalso
          rw [ej, hid, hn i ei] at hij
          rw [hn i ei] at hui
          have := h2 i hi hui
          omega
        · rw [hn i ei] at hui hij
          rw [hn j ej] at huj hij
          exact h3 i j hi hj hui huj hij
  · have hsame : ∀ n, (t.k.shm.segments n).used = (s.k.shm.segments n).used ∧
        (t.k.shm.segments n).id = (s.k.shm.segments n).id := by
      intro n
      by_cases e : n = i0
      · rw [e, hi0]; exact ⟨rfl, rfl⟩
      · rw [hn n e]; exact ⟨rfl, rfl⟩
    refine ⟨⟨by omega, ?_, ?_⟩, by omega⟩
    · intro i hi hu
      rw [(hsame i).1] at hu
      rw [(hsame i).2, hnext]
      exact h2 i hi hu
    · intro i j hi hj hui huj hij
      rw [(hsame i).1] at hui
      rw [(hsame j).1] at huj
      rw [(hsame i).2, (hsame j).2] at hij
      exact h3 i j hi hj hui huj hij
  · refine ⟨⟨by omega, ?_, ?_⟩, by omega⟩
    · intro i hi hu
      have ei : i ≠ i0 := fun e => hu (by rw [e, hi0])
      rw [hn i ei] at hu ⊢
      rw [hnext]
      exact h2 i hi hu
    · intro i j hi hj hui huj hij
      have ei : i ≠ i0 := fun e => hui (by rw [e, hi0])
      have ej : j ≠ i0 := fun e => huj (by rw [e, hi0])
      rw [hn i ei] at hui hij
      rw [hn j ej] at huj hij
      exact h3 i j hi hj hui huj hij

theorem idInv_run {L : MemLayout} :
    ∀ (ops : List ShmOp) (s s' : SysState), IdInv s.k.shm → ShmRun L IdInRange s ops s' →
      IdInv s'.k.shm ∧ s.k.shm.next_id ≤ s'.k.shm.next_id := by
  intro ops
  induction ops with
  | nil => intro s s' h hr; rw [shmRun_nil] at hr; rw [hr]; exact ⟨h, le_refl _⟩
  | cons op ops ih =>
    intro s s' h hr
    rw [shmRun_cons] at hr
    obtain ⟨hleg, t, ht, hr⟩ := hr
    obtain ⟨h1, h2⟩ := idInv_step h hleg ht
    obtain ⟨h3, h4⟩ := ih t s' h1 hr
    exact ⟨h3, le_trans h2 h4⟩

theorem do_shmget_creates_id {L : MemLayout} {s : KState} {key : Int} (hc : Creates s key)
    (size : Nat) (flag : Int) :
    (do_shmget L s key size flag).2 = s.shm.next_id ∧
    (do_shmget L s key size flag).1.shm.next_id = toInt32 (s.shm.next_id + 1) := by
  obtain ⟨h1, h2, h3⟩ := hc
  cases ha : shm_alloc s.shm with
  | none => exact absurd ha h2
  | some j => rw [do_shmget_create h1 ha h3]; exact ⟨rfl, rfl⟩

/-- C12 (as amended): as long as the 32-bit counter `next_id` does not overflow (no creating
`do_shmget` at `next_id = INT_MAX`): the first creating `do_shmget` after `shm_init` returns
1; in every reachable state the live segments have pairwise distinct ids; a creating
`do_shmget` returns an id strictly greater than the id of any earlier creating call and than
the id of any segment that was live at an earlier time (removed in between or not), so a
segment created after a removal never gets the id of the removed one. -/
theorem c12_ids_unique_monotone (L : MemLayout) (s : SysState)
    (hs : ShmReachBy L IdInRange s) :
    (∀ (s0 : SysState) (key : Int) (size : Nat) (flag : Int), ShmInitial s0 →
      Creates s0.k key → (do_shmget L s0.k key size flag).2 = 1) ∧
    (∀ i j, i < NSHM → j < NSHM → (s.k.shm.segments i).used ≠ 0 →
      (s.k.shm.segments j).used ≠ 0 →
      (s.k.shm.segments i).id = (s.k.shm.segments j).id → i = j) ∧
    (∀ (key : Int) (size : Nat) (flag : Int) (ops : List ShmOp) (s' : SysState)
      (key' : Int) (size' : Nat) (flag' : Int),
      Creates s.k key → s.k.shm.next_id < 2147483647 →
      ShmRun L IdInRange { s with k := (do_shmget L s.k key size flag).1 } ops s' →
      Creates s'.k key' →
      (do_shmget L s.k key size flag).2 < (do_shmget L s'.k key' size' flag').2) ∧
    (∀ (i : Nat) (ops : List ShmOp) (s' : SysState) (key : Int) (size : Nat) (flag : Int),
      i < NSHM → (s.k.shm.segments i).used ≠ 0 → ShmRun L IdInRange s ops s' →
      Creates s'.k key →
      (s.k.shm.segments i).id < (do_shmget L s'.k key size flag).2) := by
  obtain ⟨s0, ops0, hinit, hrun⟩ := hs
  have hinv : IdInv s.k.shm := (idInv_run ops0 s0 s (idInv_init hinit) hrun).1
  refine ⟨?_, hinv.2.2, ?_, ?_⟩
  · intro s1 key size flag h1 hc
    rw [(do_shmget_creates_id hc size flag).1]
    obtain ⟨t0, e⟩ := h1
    rw [e]
    rfl
  · intro key size flag ops s' key' size' flag' hc hlt hr hc'
    have hstep := @idInv_step L s { s with k := (do_shmget L s.k key size flag).1 }
      (ShmOp.shmget key size flag) hinv (fun _ => hlt) rfl
    have hmono := idInv_run ops _ s' hstep.1 hr
    rw [(do_shmget_creates_id hc size flag).1, (do_shmget_creates_id hc' size' flag').1]
    have e2 := (do_shmget_creates_id (L := L) hc size flag).2
    rw [toInt32_of_range (by have := hinv.1; omega) (by omega)] at e2
    have h3 := hmono.2
    simp only [e2] at h3
    omega
  · intro i ops s' key size flag hi hu hr hc
    have hmono := idInv_run ops s s' hinv hr
    rw [(do_shmget_creates_id hc size flag).1]
    have := (hinv.2.1 i hi hu).2
    have h3 := hmono.2
    omega

/-- Witness for C12: the example system right after `shm_init`; the first creating call
returns id 1. -/
theorem c12_ids_unique_monotone_witness :
    ShmReachBy exLayout IdInRange exSys0 ∧ ShmInitial exSys0 ∧ Creates exSys0.k 1234 ∧
    (do_shmget exLayout exSys0.k 1234 4096 0).2 = 1 :=
  ⟨⟨exSys0, [], shmInitial_exSys0, rfl⟩, shmInitial_exSys0, by decide,
    (c12_ids_unique_monotone exLayout exSys0 ⟨exSys0, [], shmInitial_exSys0, rfl⟩).1
      exSys0 1234 4096 0 shmInitial_exSys0 (by decide)⟩

theorem createRemoveN_zero (L : MemLayout) (s : KState) : createRemoveN L 0 s = some s := rfl

theorem createRemoveN_succ (L : MemLayout) (k : Nat) (s : KState) :
    createRemoveN L (k + 1) s =
      (do_shmctl L (do_shmget L s 0 4096 0).1 (do_shmget L s 0 4096 0).2 SHM_RMID).bind
        fun r => createRemoveN L k r.1 := rfl

theorem allocState_eta (A : AllocState) :
    ({ freelist := A.freelist, npage := A.npage, next := A.next, ref_count := A.ref_count }
      : AllocState) = A := by
  cases A; rfl

/-- One round of create and remove on a table without live segments: the allocator is as
before, the table has no live segment, and `next_id` has been incremented as a C `int`. -/
theorem create_remove_once {L : MemLayout} (hL : L.WF) (s : KState)
    (hv : validPa L s.alloc.freelist) (hrc : s.alloc.ref_count (pidx L s.alloc.freelist) = 0)
    (hnp : s.alloc.npage < 18446744073709551616)
    (hun : ∀ i, i < NSHM → (s.shm.segments i).used = 0) :
    ∃ s' : KState,
      do_shmctl L (do_shmget L s 0 4096 0).1 (do_shmget L s 0 4096 0).2 SHM_RMID
        = some (s', 0) ∧
      s'.alloc = s.alloc ∧ (∀ i, i < NSHM → (s'.shm.segments i).used = 0) ∧
      s'.shm.next_id = toInt32 (s.shm.next_id + 1) := by
  have h1 : (if (0 : Int) ≠ 0 then shm_lookup_key s.shm 0 else none) = none := by
    rw [if_neg (by decide)]
  have h3 := validPa_ne_zero hL hv
  obtain ⟨j, ha⟩ : ∃ j, shm_alloc s.shm = some j :=
    range_find_isSome (i := 0) (by decide) (decide_eq_true (hun 0 (by decide)))
  have hj := (shm_alloc_some ha).1
  rw [do_shmget_create h1 ha h3, kalloc_eq (idxOk_page hL hv) h3]
  have hrem := shmctl_remove_spec hL
    { alloc :=
        { freelist := s.alloc.next s.alloc.freelist
          npage := (18446744073709551616 + s.alloc.npage - 1) % 18446744073709551616
          next := Function.update (Function.update s.alloc.next s.alloc.freelist junk5)
            s.alloc.freelist 0
          ref_count := Function.update s.alloc.ref_count (pidx L s.alloc.freelist) 1 }
      shm :=
        { segments := Function.update s.shm.segments j
            { id := s.shm.next_id
              key := 0
              pa := s.alloc.freelist
              size := toUint64 (toInt32
                ((if toInt32
                    ((((4096 : Nat) + PGSIZE - 1) % 18446744073709551616 / PGSIZE : Nat) : Int)
                    = 0
                  then 1
                  else toInt32
                    ((((4096 : Nat) + PGSIZE - 1) % 18446744073709551616 / PGSIZE : Nat) : Int))
                  * (PGSIZE : Int)))
              ref_count := 0
              perm := 0
              used := 1 }
          next_id := toInt32 (s.shm.next_id + 1) } } j hj
    (Function.update_same _ _ _)
    (by simp)
    (by
      intro n hn hun' _
      by_contra hne
      simp only [Function.update_noteq hne] at hun'
      exact hun' (hun n hn))
    (by simp)
    hv
    (by simp only [Function.update_same])
  refine ⟨_, hrem, ?_, ?_, rfl⟩
  · simp only [Function.update_idem, Function.update_eq_self]
    have e1 : ((18446744073709551616 + s.alloc.npage - 1) % 18446744073709551616 + 1)
        % 18446744073709551616 = s.alloc.npage := by omega
    have e2 : Function.update s.alloc.ref_count (pidx L s.alloc.freelist) 0
        = s.alloc.ref_count := by
      rw [← hrc, Function.update_eq_self]
    rw [e1, e2]
  · intro i hi
    by_cases e : i = j
    · rw [e]; simp only [Function.update_same]
    · simp only [Function.update_noteq e]; exact hun i hi

theorem createRemoveN_spec {L : MemLayout} (hL : L.WF) (A : AllocState)
    (hv : validPa L A.freelist) (hrc : A.ref_count (pidx L A.freelist) = 0)
    (hnp : A.npage < 18446744073709551616) (k : Nat) :
    ∀ s : KState, s.alloc = A → (∀ i, i < NSHM → (s.shm.segments i).used = 0) →
      -2147483648 ≤ s.shm.next_id → s.shm.next_id < 2147483648 →
      ∃ s' : KState, createRemoveN L k s = some s' ∧ s'.alloc = A ∧
        (∀ i, i < NSHM → (s'.shm.segments i).used = 0) ∧
        s'.shm.next_id = toInt32 (s.shm.next_id + (k : Int)) := by
  induction k with
  | zero =>
    intro s hA hun hlo hhi
    refine ⟨s, rfl, hA, hun, ?_⟩
    rw [Nat.cast_zero, add_zero, toInt32_of_range hlo hhi]
  | succ k ih =>
    intro s hA hun hlo hhi
    rw [← hA] at hv hrc hnp
    obtain ⟨s1, h1, h2, h3, h4⟩ := create_remove_once hL s hv hrc hnp hun
    obtain ⟨s2, g1, g2, g3, g4⟩ := ih s1 (h2.trans hA) h3
      (by rw [h4]; unfold toInt32; omega) (by rw [h4]; unfold toInt32; omega)
    refine ⟨s2, ?_, g2, g3, ?_⟩
    · rw [createRemoveN_succ, h1, Option.some_bind]
      exact g1
    · rw [g4, h4]
      unfold toInt32; push_cast; omega

/-- Counterexample to C12 as stated: on the example system the first creating `do_shmget`
returns 1; after `2^31 - 1` rounds of creating a segment and removing it, the counter
`next_id` has wrapped and the next creating `do_shmget` returns `-2^31`, which is not greater
than the ids returned before (and is negative, the failure value range of the callers). -/
theorem c12_counterexample :
    ∃ s : KState, createRemoveN exLayout 2147483647 exK0 = some s ∧ Creates s 0 ∧
      (do_shmget exLayout exK0 0 4096 0).2 = 1 ∧
      (do_shmget exLayout s 0 4096 0).2 = -2147483648 := by
  obtain ⟨s, h1, h2, h3, h4⟩ := createRemoveN_spec (L := exLayout) (by decide) exInit
    (by decide) (by decide) (by decide) 2147483647 exK0 rfl (by decide) (by decide) (by decide)
  have hc : Creates s 0 := by
    refine ⟨by rw [if_neg (by decide)], ?_, ?_⟩
    · obtain ⟨j, hj⟩ : ∃ j, shm_alloc s.shm = some j :=
        range_find_isSome (i := 0) (by decide) (decide_eq_true (h3 0 (by decide)))
      rw [hj]; simp
    · rw [h2]; decide
  refine ⟨s, h1, hc, by decide, ?_⟩
  rw [(do_shmget_creates_id hc 4096 0).1, h4]
  decide

/-! ## C13: size rounding in `do_shmget` -/

/-- For requests of at most `2^31 - 4096` bytes the recorded size is the request rounded up
to whole pages, one page at least. -/
theorem shmget_size_in_range (size : Nat) (h : size ≤ 2147479552) :
    toUint64 (toInt32
      ((if toInt32 (((size + PGSIZE - 1) % 18446744073709551616 / PGSIZE : Nat) : Int) = 0
        then 1
        else toInt32 (((size + PGSIZE - 1) % 18446744073709551616 / PGSIZE : Nat) : Int))
        * (PGSIZE : Int))) =
      max 1 ((size + 4095) / 4096) * 4096 := by
  have e1 : (size + PGSIZE - 1) % 18446744073709551616 / PGSIZE = (size + 4095) / 4096 := by
    unfold PGSIZE; omega
  have hq : (size + 4095) / 4096 < 524288 := by omega
  have ht : toInt32 (((size + 4095) / 4096 : Nat) : Int) = (((size + 4095) / 4096 : Nat) : Int) :=
    toInt32_of_range (by omega) (by omega)
  have hp : (PGSIZE : Int) = 4096 := rfl
  rw [e1, ht, hp]
  by_cases h0 : (size + 4095) / 4096 = 0
  · have hc : (((size + 4095) / 4096 : Nat) : Int) = 0 := by exact_mod_cast h0
    rw [if_pos hc, h0]
    decide
  · have h0' : (((size + 4095) / 4096 : Nat) : Int) ≠ 0 := by exact_mod_cast h0
    rw [if_neg h0']
    have hm : max 1 ((size + 4095) / 4096) = (size + 4095) / 4096 := by omega
    rw [hm, toInt32_of_range (by omega) (by omega)]
    unfold toUint64
    omega

/-- C13, the code at failing inputs: on the example state, a creating `do_shmget` with
`size = 2^32` records a live segment of size 0; with `size = 2^31` it records
`0xFFFFFFFF80000000`; with `size = 2^64 - 1` it records one page (4096 bytes). -/
theorem c13_size_truncation :
    Creates exK0 1234 ∧
    ((do_shmget exLayout exK0 1234 4294967296 0).1.shm.segments 0).used = 1 ∧
    ((do_shmget exLayout exK0 1234 4294967296 0).1.shm.segments 0).size = 0 ∧
    ((do_shmget exLayout exK0 1234 2147483648 0).1.shm.segments 0).size
      = 18446744071562067968 ∧
    ((do_shmget exLayout exK0 1234 18446744073709551615 0).1.shm.segments 0).size = 4096 := by
  refine ⟨by decide, by decide, by decide, by decide, by decide⟩

/-! ## C14: failures leave the state unchanged -/

/-- C14: every reported failure leaves the whole state as it was: `kalloc` on an empty free
list; `do_shmget` when no key matches and no slot is unused, or when the allocator is empty;
`do_shmat` on an unknown id or when the mapping fails; `do_shmdt` when no live segment
matches; `do_shmctl` on an unknown id or on `SHM_RMID` with a positive attach count. -/
theorem c14_failures_atomic (L : MemLayout) :
    (∀ a : AllocState, a.freelist = 0 → kalloc L a = (a, 0)) ∧
    (∀ (s : KState) (key : Int) (size : Nat) (flag : Int),
      (if key ≠ 0 then shm_lookup_key s.shm key else none) = none →
      (shm_alloc s.shm = none ∨ s.alloc.freelist = 0) →
      do_shmget L s key size flag = (s, -1)) ∧
    (∀ (s : KState) (p : Proc) (ok : Bool) (shmid : Int) (addr : Nat) (flag : Int),
      (shm_lookup_id s.shm shmid = none ∨ ok = false) →
      do_shmat s p ok shmid addr flag = (s, p, PTR_FAIL)) ∧
    (∀ (s : KState) (p : Proc) (addr : Nat),
      shmdt_find s.shm p.pagetable addr = none → do_shmdt s p addr = (s, p, -1)) ∧
    (∀ (s : KState) (shmid cmd : Int),
      shm_lookup_id s.shm shmid = none → do_shmctl L s shmid cmd = some (s, -1)) ∧
    (∀ (s : KState) (shmid : Int) (i : Nat),
      shm_lookup_id s.shm shmid = some i → (s.shm.segments i).ref_count > 0 →
      do_shmctl L s shmid SHM_RMID = some (s, -1)) := by
  refine ⟨fun a h => kalloc_empty h, ?_, ?_, fun s p addr h => do_shmdt_nomatch h,
    fun s shmid cmd h => do_shmctl_unknown h cmd, fun s shmid i h hr => do_shmctl_attached h hr⟩
  · intro s key size flag h hor
    cases ha : shm_alloc s.shm with
    | none => exact do_shmget_noslot h ha size flag
    | some j =>
      rcases hor with h' | h'
      · rw [ha] at h'; exact absurd h' (by simp)
      · exact do_shmget_nomem h ha h' size flag
  · intro s p ok shmid addr flag hor
    cases h : shm_lookup_id s.shm shmid with
    | none => exact do_shmat_unknown h p ok addr flag
    | some i =>
      rcases hor with h' | h'
      · rw [h] at h'; exact absurd h' (by simp)
      · rw [h']; exact do_shmat_mapfail h p addr flag

/-- Witness for C14: on the example state the id 7 is unknown, and `do_shmat` fails leaving
state and process as they were. -/
theorem c14_failures_atomic_witness :
    shm_lookup_id exK0.shm 7 = none ∧
    do_shmat exK0 (exSys0.procs 0) true 7 0 0 = (exK0, exSys0.procs 0, PTR_FAIL) :=
  ⟨by decide,
    (c14_failures_atomic exLayout).2.2.1 exK0 (exSys0.procs 0) true 7 0 0 (Or.inl (by decide))⟩

/-! ## C17 and C20: the aliasing scenario -/

theorem reach_exAliasDetached : ShmReachBy exLayout anyCall exAliasDetached :=
  ⟨exSys0, exAliasOps, shmInitial_exSys0,
    trivial, _, rfl, trivial, _, rfl, trivial, _, rfl, trivial, _, rfl, rfl⟩

theorem reach_exAliasAttached : ShmReachBy exLayout anyCall exAliasAttached :=
  ⟨exSys0, exAliasOps.take 3, shmInitial_exSys0,
    trivial, _, rfl, trivial, _, rfl, trivial, _, rfl, rfl⟩

/-- C17, the code at the failing input: in the state reached from `kinit` and `shm_init` by
`do_shmget(11, 4096, 0)`, `do_shmget(22, 8192, 0)`, `do_shmat(2, 0, 0)` and
`do_shmdt(4096)`, the live segment with id 1, which was never attached, has attach count
`-1`, and `do_shmctl(1, SHM_RMID)` returns 0 although the count is not 0. -/
theorem c17_negative_attach_count :
    ShmReachBy exLayout anyCall exAliasDetached ∧
    (exAliasDetached.k.shm.segments 0).used ≠ 0 ∧
    (exAliasDetached.k.shm.segments 0).id = 1 ∧
    (exAliasDetached.k.shm.segments 0).ref_count = -1 ∧
    (do_shmctl exLayout exAliasDetached.k 1 SHM_RMID).map (fun r => r.2) = some 0 :=
  ⟨reach_exAliasDetached, by decide, by decide, by decide, by decide⟩

/-- C20, the code at the failing input: `do_shmget(22, 8192, 0)` takes one page from the
allocator (the counter goes from 2 to 1) and records the segment with id 2 with base
`0x805fe000` and size 8192; after `do_shmat(2, 0, 0)` the second virtual page of the mapping
translates to `0x805ff000`, which is the backing page of the other live segment (id 1) and
was never obtained for segment 2. -/
theorem c20_attach_maps_foreign_page :
    ShmReachBy exLayout anyCall exAliasAttached ∧
    (do_shmget exLayout exK0 11 4096 0).1.alloc.npage = 2 ∧
    exAliasAttached.k.alloc.npage = 1 ∧
    (exAliasAttached.k.shm.segments 1).used ≠ 0 ∧
    (exAliasAttached.k.shm.segments 1).id = 2 ∧
    (exAliasAttached.k.shm.segments 1).pa = 0x805fe000 ∧
    (exAliasAttached.k.shm.segments 1).size = 8192 ∧
    (exAliasAttached.procs 0).pagetable 0 = some 0x805fe000 ∧
    (exAliasAttached.procs 0).pagetable 1 = some 0x805ff000 ∧
    (exAliasAttached.k.shm.segments 0).used ≠ 0 ∧
    (exAliasAttached.k.shm.segments 0).id = 1 ∧
    (exAliasAttached.k.shm.segments 0).pa = 0x805ff000 :=
  ⟨reach_exAliasAttached, by decide, by decide, by decide, by decide, by decide, by decide,
    by decide, by decide, by decide, by decide, by decide⟩

/-! ## C18: lock discipline -/

/-- C18 (as amended): `kalloc`, `kfree`, `incref`, `decref`, `getref` and, within shm.c,
`do_shmat` and `do_shmdt` never hold more than one of the three locks at a time; `do_shmget`
and `do_shmctl` never hold more than two (`shm_table.lock` together with one lock of the
allocator, taken inside `kalloc` or `kfree`). -/
theorem c18_lock_discipline (L : MemLayout) :
    (∀ a : AllocState, maxHeld [] (kallocLocks a) ≤ 1) ∧
    (∀ (a : AllocState) (pa : Nat), maxHeld [] (kfreeLocks L a pa) ≤ 1) ∧
    maxHeld [] refLocks ≤ 1 ∧ maxHeld [] shmatLocks ≤ 1 ∧
    (∀ (s : KState) (key : Int), maxHeld [] (shmgetLocks s key) ≤ 2) ∧
    (∀ (s : KState) (shmid cmd : Int), maxHeld [] (shmctlLocks L s shmid cmd) ≤ 2) := by
  refine ⟨?_, ?_, by decide, by decide, ?_, ?_⟩
  · intro a
    unfold kallocLocks
    split <;> decide
  · intro a pa
    unfold kfreeLocks
    split <;> decide
  · intro s key
    unfold shmgetLocks
    split
    · decide
    · split
      · decide
      · unfold kallocLocks
        split <;> decide
  · intro s shmid cmd
    unfold shmctlLocks
    split
    · decide
    · split
      · split
        · decide
        · unfold kfreeLocks
          split <;> decide
      · decide

/-- Counterexample to C18 as stated: the creating `do_shmget(1234, ...)` on the example state
holds `shm_table.lock` and `kmem.lock` at the same time, and `do_shmctl(1, SHM_RMID)` on the
state with the segment holds `shm_table.lock` and `page_ref.lock` at the same time. -/
theorem c18_counterexample :
    shmgetLocks exK0 1234 =
      [LockEv.acquire Lock.shm_table, LockEv.acquire Lock.kmem, LockEv.release Lock.kmem,
        LockEv.acquire Lock.page_ref, LockEv.release Lock.page_ref,
        LockEv.release Lock.shm_table] ∧
    maxHeld [] (shmgetLocks exK0 1234) = 2 ∧
    maxHeld [] (shmctlLocks exLayout exK1 1 SHM_RMID) = 2 :=
  ⟨by decide, by decide, by decide⟩

/-! ## C11: attach/detach accounting -/

theorem shm_lookup_id_congr {t t' : ShmTable} (shmid : Int)
    (h : ∀ n, n < NSHM → (t'.segments n).used = (t.segments n).used ∧
      (t'.segments n).id = (t.segments n).id) :
    shm_lookup_id t' shmid = shm_lookup_id t shmid := by
  unfold shm_lookup_id
  apply range_find_congr
  intro n hn
  rw [(h n hn).1, (h n hn).2]

/-- One successful attach or matching detach changes the attach count of slot `i` by one (as
a C `int`) and nothing else in the kernel state. -/
theorem attachDetach_step {L : MemLayout} {shmid : Int} {i : Nat} {s t : SysState}
    {op : ShmOp} (hleg : AttachDetachOf shmid i s op) (hr : op.run L s = some t) :
    t.k.shm.segments i =
      { s.k.shm.segments i with
        ref_count := toInt32 ((s.k.shm.segments i).ref_count +
          (if isAttach op then 1 else -1)) } ∧
    (∀ n, n ≠ i → t.k.shm.segments n = s.k.shm.segments n) ∧
    t.k.shm.next_id = s.k.shm.next_id ∧ t.k.alloc = s.k.alloc ∧
    (isAttach op = true ∨ isDetach op = true) ∧ ¬ (isAttach op = true ∧ isDetach op = true) := by
  cases op with
  | shmget key size flag => exact False.elim hleg
  | shmctl sid cmd => exact False.elim hleg
  | shmat pid ok sid addr flag =>
    obtain ⟨rfl, rfl, hlk⟩ := hleg
    have e := (Option.some.inj hr).symm
    subst e
    show (do_shmat s.k (s.procs pid) true sid addr flag).1.shm.segments i = _ ∧
      (∀ n, n ≠ i → (do_shmat s.k (s.procs pid) true sid addr flag).1.shm.segments n = _) ∧
      (do_shmat s.k (s.procs pid) true sid addr flag).1.shm.next_id = _ ∧
      (do_shmat s.k (s.procs pid) true sid addr flag).1.alloc = _ ∧ _ ∧ _
    rw [do_shmat_ok hlk]
    refine ⟨?_, fun n hn => Function.update_noteq hn _ _, rfl, rfl, Or.inl rfl,
      fun h => Bool.noConfusion h.2⟩
    show Function.update s.k.shm.segments i _ i = _
    rw [Function.update_same]
    rfl
  | shmdt pid addr =>
    have hf : shmdt_find s.k.shm (s.procs pid).pagetable addr = some i := hleg
    have e := (Option.some.inj hr).symm
    subst e
    show (do_shmdt s.k (s.procs pid) addr).1.shm.segments i = _ ∧
      (∀ n, n ≠ i → (do_shmdt s.k (s.procs pid) addr).1.shm.segments n = _) ∧
      (do_shmdt s.k (s.procs pid) addr).1.shm.next_id = _ ∧
      (do_shmdt s.k (s.procs pid) addr).1.alloc = _ ∧ _ ∧ _
    rw [do_shmdt_match hf]
    refine ⟨?_, fun n hn => Function.update_noteq hn _ _, rfl, rfl, Or.inr rfl,
      fun h => Bool.noConfusion h.1⟩
    show Function.update s.k.shm.segments i _ i = _
    rw [Function.update_same]
    rfl

theorem attachDetach_run {L : MemLayout} {shmid : Int} {i : Nat} :
    ∀ (ops : List ShmOp) (s s' : SysState), ShmRun L (AttachDetachOf shmid i) s ops s' →
      -2147483648 ≤ (s.k.shm.segments i).ref_count →
      (s.k.shm.segments i).ref_count < 2147483648 →
      s'.k.shm.segments i =
        { s.k.shm.segments i with
          ref_count := toInt32 ((s.k.shm.segments i).ref_count +
            ((ops.countP isAttach : Nat) : Int) - ((ops.countP isDetach : Nat) : Int)) } ∧
      (∀ n, n ≠ i → s'.k.shm.segments n = s.k.shm.segments n) ∧
      s'.k.shm.next_id = s.k.shm.next_id ∧ s'.k.alloc = s.k.alloc := by
  intro ops
  induction ops with
  | nil =>
    intro s s' hr hlo hhi
    rw [shmRun_nil] at hr
    subst hr
    refine ⟨?_, fun n _ => rfl, rfl, rfl⟩
    simp only [List.countP_nil, Nat.cast_zero, add_zero, sub_zero, toInt32_of_range hlo hhi]
  | cons op ops ih =>
    intro s s' hr hlo hhi
    rw [shmRun_cons] at hr
    obtain ⟨hleg, t, ht, hr⟩ := hr
    obtain ⟨h1, h2, h3, h4, h5, h6⟩ := attachDetach_step hleg ht
    have hc1 : (t.k.shm.segments i).ref_count =
        toInt32 ((s.k.shm.segments i).ref_count + (if isAttach op then 1 else -1)) := by
      rw [h1]
    obtain ⟨g1, g2, g3, g4⟩ := ih t s' hr (by rw [hc1]; unfold toInt32; omega)
      (by rw [hc1]; unfold toInt32; omega)
    refine ⟨?_, fun n hn => (g2 n hn).trans (h2 n hn), g3.trans h3, g4.trans h4⟩
    rw [g1, h1]
    simp only [List.countP_cons]
    have key : toInt32 (toInt32 ((s.k.shm.segments i).ref_count + (if isAttach op then 1 else -1))
          + ((ops.countP isAttach : Nat) : Int) - ((ops.countP isDetach : Nat) : Int)) =
        toInt32 ((s.k.shm.segments i).ref_count +
          ((ops.countP isAttach + (if isAttach op = true then 1 else 0) : Nat) : Int) -
          ((ops.countP isDetach + (if isDetach op = true then 1 else 0) : Nat) : Int)) := by
      rcases h5 with ha | hd
      · have hd : isDetach op = false := by
          cases h : isDetach op with
          | false => rfl
          | true => exact absurd ⟨ha, h⟩ h6
        rw [ha, hd]
        show toInt32 (toInt32 ((s.k.shm.segments i).ref_count + 1)
            + ((ops.countP isAttach : Nat) : Int) - ((ops.countP isDetach : Nat) : Int)) =
          toInt32 ((s.k.shm.segments i).ref_count + ((ops.countP isAttach + 1 : Nat) : Int) -
            ((ops.countP isDetach + 0 : Nat) : Int))
        unfold toInt32; push_cast; omega
      · have ha : isAttach op = false := by
          cases h : isAttach op with
          | false => rfl
          | true => exact absurd ⟨h, hd⟩ h6
        rw [ha, hd]
        show toInt32 (toInt32 ((s.k.shm.segments i).ref_count + -1)
            + ((ops.countP isAttach : Nat) : Int) - ((ops.countP isDetach : Nat) : Int)) =
          toInt32 ((s.k.shm.segments i).ref_count + ((ops.countP isAttach + 0 : Nat) : Int) -
            ((ops.countP isDetach + 1 : Nat) : Int))
        unfold toInt32; push_cast; omega
    simp only [key]

theorem attachDetach_lookup {L : MemLayout} {shmid : Int} {i : Nat} {ops : List ShmOp}
    {s s' : SysState} (hr : ShmRun L (AttachDetachOf shmid i) s ops s')
    (hlo : -2147483648 ≤ (s.k.shm.segments i).ref_count)
    (hhi : (s.k.shm.segments i).ref_count < 2147483648) (sid : Int) :
    shm_lookup_id s'.k.shm sid = shm_lookup_id s.k.shm sid := by
  obtain ⟨h1, h2, -, -⟩ := attachDetach_run ops s s' hr hlo hhi
  apply shm_lookup_id_congr
  intro n _
  by_cases e : n = i
  · rw [e, h1]; exact ⟨rfl, rfl⟩
  · rw [h2 n e]; exact ⟨rfl, rfl⟩

/-- C11 (as amended): for a segment with attach count 0 (found by its id in slot `i`, its
backing page a page `kfree` accepts), after a run of `a` successful `do_shmat(id)` calls and
`b ≤ a` successful `do_shmdt` calls that match the segment, in any order and from any
processes, with `a - b` at most `INT_MAX`: the attach count is `a - b`, and
`do_shmctl(id, SHM_RMID)` returns 0 if `a - b = 0` and otherwise returns -1 and changes
nothing. -/
theorem c11_attach_detach_accounting (L : MemLayout) (hL : L.WF) (s s' : SysState)
    (shmid : Int) (i : Nat) (ops : List ShmOp)
    (hlk : shm_lookup_id s.k.shm shmid = some i)
    (hfresh : (s.k.shm.segments i).ref_count = 0)
    (hpa : validPa L (s.k.shm.segments i).pa)
    (hrun : ShmRun L (AttachDetachOf shmid i) s ops s')
    (hba : ops.countP isDetach ≤ ops.countP isAttach)
    (hrange : ops.countP isAttach - ops.countP isDetach < 2147483648) :
    (s'.k.shm.segments i).ref_count
      = ((ops.countP isAttach : Nat) : Int) - ((ops.countP isDetach : Nat) : Int) ∧
    ∃ r : KState × Int, do_shmctl L s'.k shmid SHM_RMID = some r ∧
      (r.2 = 0 ↔ ops.countP isAttach = ops.countP isDetach) ∧
      (ops.countP isAttach ≠ ops.countP isDetach → r.2 = -1 ∧ r.1 = s'.k) := by
  obtain ⟨h1, -, -, -⟩ := attachDetach_run ops s s' hrun (by rw [hfresh]; decide)
    (by rw [hfresh]; decide)
  have hlk' : shm_lookup_id s'.k.shm shmid = some i := by
    rw [attachDetach_lookup hrun (by rw [hfresh]; decide) (by rw [hfresh]; decide), hlk]
  have hc : (s'.k.shm.segments i).ref_count
      = ((ops.countP isAttach : Nat) : Int) - ((ops.countP isDetach : Nat) : Int) := by
    rw [h1, hfresh]
    simp only [zero_add]
    exact toInt32_of_range (by omega) (by omega)
  refine ⟨hc, ?_⟩
  by_cases e : ops.countP isAttach = ops.countP isDetach
  · have hnot : ¬ (s'.k.shm.segments i).ref_count > 0 := by rw [hc, e]; omega
    have hpa' : validPa L (s'.k.shm.segments i).pa := by rw [h1]; exact hpa
    rw [do_shmctl_remove hlk' hnot, kfree_eq hL hpa']
    exact ⟨_, rfl, ⟨fun _ => e, fun _ => rfl⟩, fun h => absurd e h⟩
  · have hpos : (s'.k.shm.segments i).ref_count > 0 := by rw [hc]; omega
    rw [do_shmctl_attached hlk' hpos]
    refine ⟨_, rfl, ⟨fun h => ?_, fun h => absurd h e⟩, fun _ => ⟨rfl, rfl⟩⟩
    have h' : (-1 : Int) = 0 := h
    exact absurd h' (by decide)

/-- Witness for C11: one attach of segment 1 on the example system; removal fails. -/
theorem c11_attach_detach_accounting_witness :
    exLayout.WF ∧ shm_lookup_id exSys1.k.shm 1 = some 0 ∧
    (exSys1.k.shm.segments 0).ref_count = 0 ∧
    ∃ s' : SysState,
      ShmRun exLayout (AttachDetachOf 1 0) exSys1 [ShmOp.shmat 0 true 1 0 0] s' ∧
      (s'.k.shm.segments 0).ref_count = 1 :=
  ⟨by decide, by decide, by decide, _, ⟨⟨rfl, rfl, by decide⟩, _, rfl, rfl⟩,
    (c11_attach_detach_accounting exLayout (by decide) exSys1 _ 1 0
      [ShmOp.shmat 0 true 1 0 0] (by decide) (by decide) (by decide)
      ⟨⟨rfl, rfl, by decide⟩, _, rfl, rfl⟩ (by decide) (by decide)).1⟩

theorem attach_replicate_run {L : MemLayout} {shmid : Int} {i : Nat} (pid addr : Nat)
    (flag : Int) (k : Nat) :
    ∀ s : SysState, shm_lookup_id s.k.shm shmid = some i →
      ∃ s', ShmRun L (AttachDetachOf shmid i) s
        (List.replicate k (ShmOp.shmat pid true shmid addr flag)) s' := by
  induction k with
  | zero => intro s _; exact ⟨s, rfl⟩
  | succ k ih =>
    intro s hlk
    have hleg : AttachDetachOf shmid i s (ShmOp.shmat pid true shmid addr flag) :=
      ⟨rfl, rfl, hlk⟩
    obtain ⟨h1, h2, -, -, -, -⟩ := attachDetach_step (L := L) hleg rfl
    have hlk' : shm_lookup_id
        (do_shmat s.k (s.procs pid) true shmid addr flag).1.shm shmid = some i := by
      rw [← hlk]
      apply shm_lookup_id_congr
      intro n _
      by_cases e : n = i
      · rw [e]
        have := h1
        simp only at this
        rw [this]
        exact ⟨rfl, rfl⟩
      · exact ⟨by rw [h2 n e], by rw [h2 n e]⟩
    obtain ⟨s', hs'⟩ := ih
      { k := (do_shmat s.k (s.procs pid) true shmid addr flag).1
        procs := Function.update s.procs pid
          (do_shmat s.k (s.procs pid) true shmid addr flag).2.1 } hlk'
    exact ⟨s', hleg, _, rfl, hs'⟩

/-- Counterexample to C11 as stated (any `a`): on the example system, `a = 2^31` successful
attaches of segment 1 and `b = 0` detaches leave the 32-bit attach count at `-2^31`, and
`do_shmctl(1, SHM_RMID)` then returns 0 although `a - b` is not 0. -/
theorem c11_counterexample :
    ∃ s' : SysState,
      ShmRun exLayout (AttachDetachOf 1 0) exSys1
        (List.replicate 2147483648 (ShmOp.shmat 0 true 1 0 0)) s' ∧
      (List.replicate 2147483648 (ShmOp.shmat 0 true 1 0 0)).countP isAttach = 2147483648 ∧
      (List.replicate 2147483648 (ShmOp.shmat 0 true 1 0 0)).countP isDetach = 0 ∧
      (s'.k.shm.segments 0).ref_count = -2147483648 ∧
      (do_shmctl exLayout s'.k 1 SHM_RMID).map (fun r => r.2) = some 0 := by
  obtain ⟨s', hrun⟩ := @attach_replicate_run exLayout 1 0 0 0 0 2147483648 exSys1 (by decide)
  have ha : (List.replicate 2147483648 (ShmOp.shmat 0 true 1 0 0)).countP isAttach
      = 2147483648 := by
    rw [List.countP_replicate]; rfl
  have hd : (List.replicate 2147483648 (ShmOp.shmat 0 true 1 0 0)).countP isDetach = 0 := by
    rw [List.countP_replicate]; rfl
  obtain ⟨h1, -, -, -⟩ := attachDetach_run _ exSys1 s' hrun (by decide) (by decide)
  rw [ha, hd] at h1
  have hc : (s'.k.shm.segments 0).ref_count = -2147483648 := by rw [h1]; decide
  have hlk : shm_lookup_id s'.k.shm 1 = some 0 := by
    rw [attachDetach_lookup hrun (by decide) (by decide)]; decide
  have hpa : (s'.k.shm.segments 0).pa = 0x805ff000 := by rw [h1]; decide
  refine ⟨s', hrun, ha, hd, hc, ?_⟩
  rw [do_shmctl_remove hlk (by rw [hc]; decide), hpa,
    kfree_eq (L := exLayout) (by decide) (by decide)]
  rfl

/-! ## C15: successful attach -/

/-- C15 (as amended): for a live segment id (found in slot `i`) whose attach count is below
`INT_MAX`, and a caller whose mapping request succeeds and whose size plus the segment size
is below `2^64`, `do_shmat` returns `PGROUNDUP` of the old size, sets the size to the old size
plus the segment size, increments the attach count of slot `i` by exactly one, leaves every
other field of the slot, every other slot, `next_id` and the allocator as they were; the
hint address and the flags do not matter. -/
theorem c15_attach_success (s : KState) (p : Proc) (shmid : Int) (addr : Nat) (flag : Int)
    (i : Nat) (h : shm_lookup_id s.shm shmid = some i)
    (hlo : -2147483648 ≤ (s.shm.segments i).ref_count)
    (hhi : (s.shm.segments i).ref_count < 2147483647)
    (hsz : p.sz + (s.shm.segments i).size < 18446744073709551616) :
    (do_shmat s p true shmid addr flag).2.2 = PGROUNDUP p.sz ∧
    (do_shmat s p true shmid addr flag).2.1.sz = p.sz + (s.shm.segments i).size ∧
    (do_shmat s p true shmid addr flag).1.shm.segments i =
      { s.shm.segments i with ref_count := (s.shm.segments i).ref_count + 1 } ∧
    (∀ n, n ≠ i → (do_shmat s p true shmid addr flag).1.shm.segments n = s.shm.segments n) ∧
    (do_shmat s p true shmid addr flag).1.shm.next_id = s.shm.next_id ∧
    (do_shmat s p true shmid addr flag).1.alloc = s.alloc ∧
    (∀ (addr' : Nat) (flag' : Int),
      do_shmat s p true shmid addr' flag' = do_shmat s p true shmid addr flag) := by
  rw [do_shmat_ok h]
  refine ⟨rfl, Nat.mod_eq_of_lt hsz, ?_, ?_, rfl, rfl, ?_⟩
  · simp only [Function.update_same]
    rw [toInt32_of_range (by omega) (by omega)]
  · intro n hn
    simp only [Function.update_noteq hn]
  · intro addr' flag'
    rw [do_shmat_ok h]

/-- Witness for C15: attaching segment 1 of the example state in an empty process. -/
theorem c15_attach_success_witness :
    shm_lookup_id exK1.shm 1 = some 0 ∧
    -2147483648 ≤ (exK1.shm.segments 0).ref_count ∧
    (exK1.shm.segments 0).ref_count < 2147483647 ∧
    (exSys0.procs 0).sz + (exK1.shm.segments 0).size < 18446744073709551616 ∧
    (do_shmat exK1 (exSys0.procs 0) true 1 0 0).2.2 = PGROUNDUP (exSys0.procs 0).sz ∧
    (do_shmat exK1 (exSys0.procs 0) true 1 0 0).2.1.sz
      = (exSys0.procs 0).sz + (exK1.shm.segments 0).size ∧
    ((do_shmat exK1 (exSys0.procs 0) true 1 0 0).1.shm.segments 0).ref_count = 1 :=
  ⟨by decide, by decide, by decide, by decide,
    (c15_attach_success exK1 (exSys0.procs 0) 1 0 0 0 (by decide) (by decide) (by decide)
      (by decide)).1,
    (c15_attach_success exK1 (exSys0.procs 0) 1 0 0 0 (by decide) (by decide) (by decide)
      (by decide)).2.1,
    by
      rw [(c15_attach_success exK1 (exSys0.procs 0) 1 0 0 0 (by decide) (by decide) (by decide)
        (by decide)).2.2.1]
      decide⟩

theorem reach_exBigAttached : ShmReachBy exLayout anyCall exBigAttached :=
  ⟨exSys0, [ShmOp.shmget 1234 2147483648 0, ShmOp.shmat 0 true 1 0 0], shmInitial_exSys0,
    trivial, _, rfl, trivial, _, rfl, rfl⟩

/-- Counterexample to C15 as stated (every live segment, every caller): (1) after
`do_shmget(1234, 2^31, 0)` and one attach, process 0 has size `0xFFFFFFFF80000000`, which is
also the recorded segment size; a second successful `do_shmat(1, 0, 0)` leaves the size at
`0xFFFFFFFF00000000`, the `uint64` sum wrapped, not the old size plus the segment size;
(2) after `2^31 - 1` successful attaches of segment 1 of the example system its attach count
is `INT_MAX`, and one more successful `do_shmat` leaves it at `-2^31`, not one more. -/
theorem c15_counterexample :
    (ShmReachBy exLayout anyCall exBigAttached ∧
      shm_lookup_id exBigAttached.k.shm 1 = some 0 ∧
      (exBigAttached.procs 0).sz = 18446744071562067968 ∧
      (exBigAttached.k.shm.segments 0).size = 18446744071562067968 ∧
      (do_shmat exBigAttached.k (exBigAttached.procs 0) true 1 0 0).2.1.sz
        = 18446744069414584320 ∧
      (do_shmat exBigAttached.k (exBigAttached.procs 0) true 1 0 0).2.1.sz
        ≠ (exBigAttached.procs 0).sz + (exBigAttached.k.shm.segments 0).size) ∧
    ∃ s' : SysState,
      ShmRun exLayout (AttachDetachOf 1 0) exSys1
        (List.replicate 2147483647 (ShmOp.shmat 0 true 1 0 0)) s' ∧
      shm_lookup_id s'.k.shm 1 = some 0 ∧
      (s'.k.shm.segments 0).ref_count = 2147483647 ∧
      ((do_shmat s'.k (s'.procs 0) true 1 0 0).1.shm.segments 0).ref_count = -2147483648 := by
  refine ⟨⟨reach_exBigAttached, by decide, by decide, by decide, by decide, by decide⟩, ?_⟩
  obtain ⟨s', hrun⟩ := @attach_replicate_run exLayout 1 0 0 0 0 2147483647 exSys1 (by decide)
  have ha : (List.replicate 2147483647 (ShmOp.shmat 0 true 1 0 0)).countP isAttach
      = 2147483647 := by
    rw [List.countP_replicate]; rfl
  have hd : (List.replicate 2147483647 (ShmOp.shmat 0 true 1 0 0)).countP isDetach = 0 := by
    rw [List.countP_replicate]; rfl
  obtain ⟨h1, -, -, -⟩ := attachDetach_run _ exSys1 s' hrun (by decide) (by decide)
  rw [ha, hd] at h1
  have hc : (s'.k.shm.segments 0).ref_count = 2147483647 := by rw [h1]; decide
  have hlk : shm_lookup_id s'.k.shm 1 = some 0 := by
    rw [attachDetach_lookup hrun (by decide) (by decide)]; decide
  refine ⟨s', hrun, hlk, hc, ?_⟩
  rw [do_shmat_ok hlk]
  simp only [Function.update_same]
  rw [hc]
  decide

end BobRAM
